import Mathlib

/-!
Verification development for the bezier-drawing repository
(`src/multi.py`, `src/all.py`, `src/self.py`).

The repository implements an interactive multi-segment cubic bezier editor.
Two source variants carry the core logic:

* `src/multi.py` — `CurveManager`: an ordered chain of anchor points and a
  derived list of cubic segments, with mirrored handle placement on append
  and chain re-stitching on removal.
* `src/all.py` — `Point` / `MainWindow`: a per-point pair of control handles
  with stored offsets, and a role classification (`only`/`first`/`last`/
  `center`) recomputed when points are added.

Positions are embedded as pairs of integers (`Pt`); the Python code uses
scene floats but every operation the claims speak about is built from
addition, subtraction and constant offsets only, so the arithmetic is
represented exactly.  Object identity of Qt graphics items is embedded as a
`Nat` id drawn from a monotone counter; the flat id → position association
list plays the role of the live Qt objects.  Qt's drag/signal plumbing is
embedded in Qt's delivery order: `itemChange(ItemPositionChange)` is sent
*before* Qt writes the new position, so a move first runs the connected
handlers — which read `pos()` and therefore see the moved item's OLD
position — and only then stores the new position; a `setPos` to the
position an item already holds emits nothing and changes nothing.
-/

set_option autoImplicit false

namespace BezierDrawing

/-- A 2D position (scene coordinates). -/
structure Pt where
  x : Int
  y : Int
deriving DecidableEq, Repr

/-- The cached cubic path of a `BezierCurveItem` (`QPainterPath` built by
`update_path`: start, control one, control two, end). -/
structure RenderedPath where
  p0 : Pt
  p1 : Pt
  p2 : Pt
  p3 : Pt
deriving DecidableEq, Repr

/-- The cached line of a `ControlLineItem` (`setLine` in `update_line`). -/
structure RenderedLine where
  a : Pt
  b : Pt
deriving DecidableEq, Repr

/-! ### Point store: the live draggable items

Each `DraggablePointItem` is identified by a `Nat` id; the store associates
ids to current positions.  Lookup is first-match, like following an object
reference; ids are allocated from a counter and never reused, so the
first match is the only match for any live id. -/

/-- Current position of item `i` (follows the object reference; the
`⟨0, 0⟩` default is only reachable for ids that were never allocated). -/
def lookupPos : List (Nat × Pt) → Nat → Pt
  | [], _ => ⟨0, 0⟩
  | e :: t, i => if e.1 = i then e.2 else lookupPos t i

/-- The ids present in a store. -/
def storeIds (store : List (Nat × Pt)) : List Nat := store.map (fun e => e.1)

/-- `item.setPos p` for item `i`: replace its stored position. -/
def storeSet (store : List (Nat × Pt)) (i : Nat) (p : Pt) : List (Nat × Pt) :=
  store.map (fun e => if e.1 = i then (i, p) else e)

/-! ### multi.py: segments and the curve manager -/

/-- One entry of `CurveManager.segments`: the dict stored by `add_point` /
`remove_point`.  `startP`/`endP` are the two anchor items, `c1`/`c2` the two
control items (`control_one`, `control_two`); `curve`, `lineOne`, `lineTwo`
are the cached geometry of the owned `BezierCurveItem` and the two
`ControlLineItem`s (`line_one` connects `start_point`–`control_one`,
`line_two` connects `end_point`–`control_two`). -/
structure Segment where
  startP : Nat
  c1 : Nat
  c2 : Nat
  endP : Nat
  curve : RenderedPath
  lineOne : RenderedLine
  lineTwo : RenderedLine
deriving DecidableEq, Repr

/-- `BezierCurveItem.update_path` plus both `ControlLineItem.update_line`
for one segment: recompute the cached geometry from the current positions
of the four defining items. -/
def segRefresh (store : List (Nat × Pt)) (s : Segment) : Segment :=
  { s with
    curve := ⟨lookupPos store s.startP, lookupPos store s.c1,
              lookupPos store s.c2, lookupPos store s.endP⟩
    lineOne := ⟨lookupPos store s.startP, lookupPos store s.c1⟩
    lineTwo := ⟨lookupPos store s.endP, lookupPos store s.c2⟩ }

/-- Constructing `BezierCurveItem` and the two `ControlLineItem`s: their
`__init__`s immediately call `update_path` / `update_line`, so the cached
geometry starts out equal to the current positions. -/
def mkSegment (store : List (Nat × Pt)) (a b c d : Nat) : Segment :=
  segRefresh store
    { startP := a, c1 := b, c2 := c, endP := d
      curve := ⟨⟨0, 0⟩, ⟨0, 0⟩, ⟨0, 0⟩, ⟨0, 0⟩⟩
      lineOne := ⟨⟨0, 0⟩, ⟨0, 0⟩⟩
      lineTwo := ⟨⟨0, 0⟩, ⟨0, 0⟩⟩ }

/-- `CurveManager` state: `points` is the ordered list of anchor item ids,
`segments` the derived segment list, `store` the live items, `nextId` the
id allocator standing in for Qt object identity. -/
structure CurveManager where
  store : List (Nat × Pt)
  points : List Nat
  segments : List Segment
  nextId : Nat
deriving DecidableEq, Repr

/-- `CurveManager.update_graphics`: refresh every segment's curve and both
guide lines from current positions. -/
def update_graphics (m : CurveManager) : CurveManager :=
  { m with segments := m.segments.map (segRefresh m.store) }

/-- Python `list.index` (first position of `a`, `none` standing for the
`ValueError` case). -/
def idxOf? : List Nat → Nat → Option Nat
  | [], _ => none
  | b :: t, a => if b = a then some 0 else (idxOf? t a).map (· + 1)

/-- Python `list.remove` (drop the first occurrence; no-op instead of
`ValueError` when absent, which no caller in the source can trigger). -/
def removeFirst : List Nat → Nat → List Nat
  | [], _ => []
  | b :: t, a => if b = a then t else b :: removeFirst t a

/-- Python `list.insert i x` (clamps to the end when `i` is past the end,
as Python does). -/
def insertAt {α : Type} : Nat → α → List α → List α
  | 0, x, l => x :: l
  | _ + 1, x, [] => [x]
  | n + 1, x, b :: t => b :: insertAt n x t

/-- `CurveManager.add_point`: append a new anchor; when the chain already
has an anchor (`len(self.points) > 1` after the append, i.e. the old chain
was nonempty with last anchor `startId`), create `control_one` at the
default offset `(+50, +50)` from the previous anchor when no segment exists
yet, otherwise at the mirror of the last segment's `control_two` through
the previous anchor; create `control_two` at `(-50, +50)` from the new
anchor; store the new segment and run `update_graphics`. -/
def add_point (m : CurveManager) (pos : Pt) : CurveManager :=
  let aid := m.nextId
  let store1 := m.store ++ [(aid, pos)]
  let points1 := m.points ++ [aid]
  match m.points.getLast? with
  | none =>
      update_graphics
        { store := store1, points := points1, segments := m.segments, nextId := aid + 1 }
  | some startId =>
      let startPos := lookupPos store1 startId
      let c1pos : Pt :=
        match m.segments.getLast? with
        | none => ⟨startPos.x + 50, startPos.y + 50⟩
        | some lastSeg =>
            let lc2 := lookupPos store1 lastSeg.c2
            ⟨startPos.x - (lc2.x - startPos.x), startPos.y - (lc2.y - startPos.y)⟩
      let c2pos : Pt := ⟨pos.x - 50, pos.y + 50⟩
      let c1id := aid + 1
      let c2id := aid + 2
      let store2 := store1 ++ [(c1id, c1pos), (c2id, c2pos)]
      let seg := mkSegment store2 startId c1id c2id aid
      update_graphics
        { store := store2, points := points1,
          segments := m.segments ++ [seg], nextId := aid + 3 }

/-- `CurveManager.remove_point`: no-op when the chain has at most one
anchor; otherwise pop the adjacent segment(s) according to the anchor's
position (first / last / middle), for a middle anchor synthesize a
replacement segment joining its two neighbors with fresh default-offset
handles and insert it at `point_index - 1`, then drop the anchor from the
chain and run `update_graphics`.  The `none` branch of `idxOf?` stands for
Python's `ValueError`, unreachable from the UI because the removal signal
always carries a live anchor. -/
def remove_point (m : CurveManager) (pid : Nat) : CurveManager :=
  if m.points.length ≤ 1 then m
  else
    match idxOf? m.points pid with
    | none => m
    | some idx =>
      if idx = 0 then
        let segments1 := if 0 < m.segments.length then m.segments.eraseIdx 0 else m.segments
        update_graphics
          { m with segments := segments1, points := removeFirst m.points pid }
      else if idx = m.points.length - 1 then
        update_graphics
          { m with segments := m.segments.dropLast, points := removeFirst m.points pid }
      else
        let segments1 := (m.segments.eraseIdx idx).eraseIdx (idx - 1)
        let startId := m.points.getD (idx - 1) 0
        let endId := m.points.getD (idx + 1) 0
        let startPos := lookupPos m.store startId
        let endPos := lookupPos m.store endId
        let c1pos : Pt := ⟨startPos.x + 50, startPos.y + 50⟩
        let c2pos : Pt := ⟨endPos.x - 50, endPos.y + 50⟩
        let c1id := m.nextId
        let c2id := m.nextId + 1
        let store2 := m.store ++ [(c1id, c1pos), (c2id, c2pos)]
        let seg := mkSegment store2 startId c1id c2id endId
        update_graphics
          { m with store := store2,
                   segments := insertAt (idx - 1) seg segments1,
                   points := removeFirst m.points pid,
                   nextId := m.nextId + 2 }

/-- A drag of item `pid` to position `p`.  Qt ignores a `setPos` to the
position the item already holds.  Otherwise the `moved` signal is emitted
during `itemChange(ItemPositionChange)` — before Qt writes the new
position — so the connected `update_graphics` recomputes every cached
path and guide line from the store as it still stands, and only then is
the new position written: geometry depending on the moved item is left
one event stale.  (Every item bounding a segment was connected to
`update_graphics` in `add_point` / `remove_point`; an item bounding no
segment has no dependent geometry, so running the refresh unconditionally
is observationally the same.) -/
def move_point (m : CurveManager) (pid : Nat) (p : Pt) : CurveManager :=
  if lookupPos m.store pid = p then m
  else { update_graphics m with store := storeSet m.store pid p }

/-- The empty editor session (`CurveManager.__init__`). -/
def initManager : CurveManager :=
  { store := [], points := [], segments := [], nextId := 0 }

/-- One user-level event against the curve manager. -/
inductive Op where
  | add (pos : Pt)
  | remove (pid : Nat)
  | move (pid : Nat) (pos : Pt)
deriving DecidableEq, Repr

/-- Dispatch one event. -/
def applyOp (m : CurveManager) : Op → CurveManager
  | .add pos => add_point m pos
  | .remove pid => remove_point m pid
  | .move pid pos => move_point m pid pos

/-- Run a whole event sequence from the empty session. -/
def runOps (ops : List Op) : CurveManager := ops.foldl applyOp initManager

/-- States the UI can produce. -/
def Reachable (m : CurveManager) : Prop := ∃ ops, runOps ops = m

/-! ### all.py: the single-curve variant with stored handle offsets -/

/-- Anchor role, as stored in `Point.status` (`"only"`, `"first"`,
`"last"`, `"center"`). -/
inductive Status where
  | only
  | first
  | last
  | center
deriving DecidableEq, Repr

/-- One `Point` of `all.py`: the anchor item (`point`), its two control
items (`c1`, `c2`) with their stored offsets, the cached guide lines
(`c1_line`, `c2_line`), the role and the visibility the role gates. -/
structure Point where
  pos : Pt
  c1 : Pt
  c1_offset : Pt
  c2 : Pt
  c2_offset : Pt
  status : Status
  c1Visible : Bool
  c2Visible : Bool
  line1 : RenderedLine
  line2 : RenderedLine
deriving DecidableEq, Repr

/-- `Point.display_control_points`: show the `c1` side unless the role is
`only` or `last`, show the `c2` side unless the role is `only` or
`first`. -/
def display_control_points (s : Point) : Point :=
  { s with
    c1Visible := decide (s.status ≠ .only ∧ s.status ≠ .last)
    c2Visible := decide (s.status ≠ .only ∧ s.status ≠ .first) }

/-- `Point.set_status`: store the role and re-gate handle visibility. -/
def set_status (st : Status) (s : Point) : Point :=
  display_control_points { s with status := st }

/-- `Point.update_lines`: refresh both cached guide lines from the current
anchor and handle positions. -/
def update_lines (s : Point) : Point :=
  { s with line1 := ⟨s.pos, s.c1⟩, line2 := ⟨s.pos, s.c2⟩ }

/-- `Point.__init__` followed by `setup()`: anchor at `(x, y)`, `c1` at
`(x - 50, y - 50)`, `c2` at `(x + 50, y + 50)`, stored offsets
`(50, 50)` and `(-50, -50)`, guide lines built from those positions,
role `"only"` and visibility gated by it. -/
def Point.setup (p : Pt) : Point :=
  display_control_points
    { pos := p
      c1 := ⟨p.x - 50, p.y - 50⟩
      c1_offset := ⟨50, 50⟩
      c2 := ⟨p.x + 50, p.y + 50⟩
      c2_offset := ⟨-50, -50⟩
      status := .only
      c1Visible := false
      c2Visible := false
      line1 := ⟨p, ⟨p.x - 50, p.y - 50⟩⟩
      line2 := ⟨p, ⟨p.x + 50, p.y + 50⟩⟩ }

/-- `Point.update_point`, the handler of the anchor's `moved` signal.  It
runs during `itemChange(ItemPositionChange)`, before Qt writes the new
anchor position, and reads `self.point.pos()` — still the OLD anchor
position (the signal's new-position argument is ignored by the handler).
Each handle is placed at the old anchor position minus its stored offset,
and the guide lines end up drawn from the old anchor to the just-written
handle positions. -/
def update_point (s : Point) : Point :=
  update_lines
    { s with c1 := ⟨s.pos.x - s.c1_offset.x, s.pos.y - s.c1_offset.y⟩
             c2 := ⟨s.pos.x - s.c2_offset.x, s.pos.y - s.c2_offset.y⟩ }

/-- A drag event moving the anchor to `p`: a `setPos` to the position the
anchor already holds emits nothing; otherwise `update_point` runs while
the anchor still holds its old position, and only then does Qt store
`p`. -/
def move_anchor (p : Pt) (s : Point) : Point :=
  if s.pos = p then s else { update_point s with pos := p }

/-- A drag of handle `c1` to `p`: a no-change `setPos` emits nothing;
otherwise the `moved` signal runs `update_lines` while `c1` still holds
its old position, and the new position is written afterwards. -/
def move_c1 (p : Pt) (s : Point) : Point :=
  if s.c1 = p then s else { update_lines s with c1 := p }

/-- A drag of handle `c2` to `p`: same delivery order as `move_c1`. -/
def move_c2 (p : Pt) (s : Point) : Point :=
  if s.c2 = p then s else { update_lines s with c2 := p }

/-- `Point.update_control_point_1`, the handler of `c1`'s drag-end
(`ended`) signal: store `c1`'s offset as anchor minus handle and refresh
the guide lines. -/
def update_control_point_1 (s : Point) : Point :=
  update_lines { s with c1_offset := ⟨s.pos.x - s.c1.x, s.pos.y - s.c1.y⟩ }

/-- `Point.update_control_point_2`: same for `c2`. -/
def update_control_point_2 (s : Point) : Point :=
  update_lines { s with c2_offset := ⟨s.pos.x - s.c2.x, s.pos.y - s.c2.y⟩ }

/-- `MainWindow` of `all.py`: the ordered list of `Point`s. -/
structure MainWindow where
  points : List Point
deriving DecidableEq, Repr

/-- The add-point path of `MainWindow.on_mouse_press` (the click hit empty
space, so a `Point` is created): a first point gets role `"only"`;
otherwise every existing point is set to `"center"`, the head back to
`"first"`, and the new point to `"last"` before being appended. -/
def on_mouse_press (w : MainWindow) (pos : Pt) : MainWindow :=
  let point := Point.setup pos
  if w.points.length = 0 then
    { points := w.points ++ [set_status .only point] }
  else
    let ps := w.points.map (set_status .center)
    let ps := ps.modifyHead (set_status .first)
    { points := ps ++ [set_status .last point] }

/-- `MainWindow.delete_point`, the handler of a point's double-click
(`delete_point` signal): remove the point's items from the scene and drop
it from the list.  The targeted point is given by its index; there is no
guard and no role recomputation. -/
def delete_point (w : MainWindow) (i : Nat) : MainWindow :=
  { points := w.points.eraseIdx i }

/-- Python `list[i] = f(list[i])` (no-op when out of range), used to aim an
event at one point of the window. -/
def listModify {α : Type} (f : α → α) : Nat → List α → List α
  | _, [] => []
  | 0, b :: t => f b :: t
  | n + 1, b :: t => b :: listModify f n t

/-- One user-level event against the `all.py` window: a click on empty
space, a double-click deletion, an anchor drag, a handle drag, or a handle
drag-end, the latter three aimed at the point with index `i`. -/
inductive WOp where
  | click (pos : Pt)
  | delete (i : Nat)
  | moveAnchor (i : Nat) (p : Pt)
  | moveHandle1 (i : Nat) (p : Pt)
  | moveHandle2 (i : Nat) (p : Pt)
  | endDrag1 (i : Nat)
  | endDrag2 (i : Nat)
deriving DecidableEq, Repr

/-- Dispatch one window event. -/
def applyWOp (w : MainWindow) : WOp → MainWindow
  | .click pos => on_mouse_press w pos
  | .delete i => delete_point w i
  | .moveAnchor i p => { points := listModify (move_anchor p) i w.points }
  | .moveHandle1 i p => { points := listModify (move_c1 p) i w.points }
  | .moveHandle2 i p => { points := listModify (move_c2 p) i w.points }
  | .endDrag1 i => { points := listModify update_control_point_1 i w.points }
  | .endDrag2 i => { points := listModify update_control_point_2 i w.points }

/-- Run a window event sequence from the empty window. -/
def runWOps (ops : List WOp) : MainWindow := ops.foldl applyWOp { points := [] }

/-- The role an anchor at position `i` of a chain of `n` anchors should
carry: `only` for a lone anchor, `first` at the head, `last` at the end,
`center` in between. -/
def roleAt (i n : Nat) : Status :=
  if n ≤ 1 then .only
  else if i = 0 then .first
  else if i = n - 1 then .last
  else .center

/-! ### Chain invariants of the curve manager -/

/-- The two anchors a segment connects. -/
def segEnds (s : Segment) : Nat × Nat := (s.startP, s.endP)

/-- The consecutive pairs of a chain: `(anchor i, anchor (i+1))`. -/
def zipTail (l : List Nat) : List (Nat × Nat) := l.zip l.tail

/-- Adjacency: segment `i` connects anchor `i` and anchor `i + 1`. -/
def Adj (m : CurveManager) : Prop :=
  m.segments.map segEnds = zipTail m.points

/-- Id discipline: every allocated id is below the counter, and every id
the chain or a segment references is allocated. -/
def IdsOk (m : CurveManager) : Prop :=
  (∀ i ∈ storeIds m.store, i < m.nextId) ∧
  (∀ a ∈ m.points, a ∈ storeIds m.store) ∧
  (∀ s ∈ m.segments,
    s.startP ∈ storeIds m.store ∧ s.c1 ∈ storeIds m.store ∧
    s.c2 ∈ storeIds m.store ∧ s.endP ∈ storeIds m.store)

/-- The structural invariant every reachable manager state enjoys.  (No
sync invariant relates cached geometry to current positions: a move leaves
geometry depending on the moved item one event stale, see `move_point`.) -/
def Inv (m : CurveManager) : Prop := Adj m ∧ IdsOk m

/-- The default `Point` used with `List.getD`. -/
def point0 : Point := Point.setup ⟨0, 0⟩

/-- A throwaway segment used as the default of `List.getD`. -/
def dummySeg : Segment :=
  { startP := 0, c1 := 0, c2 := 0, endP := 0
    curve := ⟨⟨0, 0⟩, ⟨0, 0⟩, ⟨0, 0⟩, ⟨0, 0⟩⟩
    lineOne := ⟨⟨0, 0⟩, ⟨0, 0⟩⟩
    lineTwo := ⟨⟨0, 0⟩, ⟨0, 0⟩⟩ }

/-! ### Store lemmas -/

theorem lookupPos_append_left {l : List (Nat × Pt)} {i : Nat}
    (h : i ∈ storeIds l) (ext : List (Nat × Pt)) :
    lookupPos (l ++ ext) i = lookupPos l i := by
  induction l with
  | nil => simp [storeIds] at h
  | cons e t ih =>
      by_cases he : e.1 = i
      · simp [lookupPos, he]
      · have h' : i ∈ storeIds t := by
          simp [storeIds] at h
          rcases h with h | h
          · exact absurd h.symm he
          · simpa [storeIds] using h
        simp [lookupPos, he, ih h']

theorem lookupPos_append_right {l : List (Nat × Pt)} {i : Nat}
    (h : i ∉ storeIds l) (ext : List (Nat × Pt)) :
    lookupPos (l ++ ext) i = lookupPos ext i := by
  induction l with
  | nil => simp
  | cons e t ih =>
      have he : e.1 ≠ i := by
        intro contra
        exact h (by simp [storeIds, contra])
      have h' : i ∉ storeIds t := by
        intro contra
        refine h ?_
        simp [storeIds] at contra ⊢
        exact Or.inr contra
      simp [lookupPos, he, ih h']

theorem storeIds_append (l l' : List (Nat × Pt)) :
    storeIds (l ++ l') = storeIds l ++ storeIds l' := by
  simp [storeIds]

theorem storeIds_storeSet (l : List (Nat × Pt)) (i : Nat) (p : Pt) :
    storeIds (storeSet l i p) = storeIds l := by
  unfold storeSet storeIds
  rw [List.map_map]
  apply List.map_congr_left
  intro e _
  by_cases he : e.1 = i
  · simp [he]
  · simp [he]

theorem storeSet_storeSet (l : List (Nat × Pt)) (i : Nat) (p : Pt) :
    storeSet (storeSet l i p) i p = storeSet l i p := by
  unfold storeSet
  rw [List.map_map]
  apply List.map_congr_left
  intro e _
  by_cases he : e.1 = i
  · simp [he]
  · simp [he]

theorem storeSet_not_mem {l : List (Nat × Pt)} {i : Nat}
    (h : i ∉ storeIds l) (p : Pt) : storeSet l i p = l := by
  induction l with
  | nil => rfl
  | cons e t ih =>
      have he : e.1 ≠ i := by
        intro contra
        exact h (by simp [storeIds, contra])
      have h' : i ∉ storeIds t := by
        intro contra
        refine h ?_
        simp [storeIds] at contra ⊢
        exact Or.inr contra
      simp [storeSet] at ih ⊢
      exact ⟨by simp [he], ih h'⟩

theorem lookupPos_storeSet_self {l : List (Nat × Pt)} {i : Nat}
    (h : i ∈ storeIds l) (p : Pt) : lookupPos (storeSet l i p) i = p := by
  induction l with
  | nil => simp [storeIds] at h
  | cons e t ih =>
      by_cases he : e.1 = i
      · simp [storeSet, lookupPos, he]
      · have h' : i ∈ storeIds t := by
          simp [storeIds] at h
          rcases h with h | h
          · exact absurd h.symm he
          · simpa [storeIds] using h
        simp only [storeSet, lookupPos] at ih ⊢
        rw [if_neg he]
        simp only [he, if_false]
        exact ih h'

/-! ### Lemmas about the Python list primitives -/

theorem idxOf?_lt_length {l : List Nat} {a i : Nat} (h : idxOf? l a = some i) :
    i < l.length := by
  induction l generalizing i with
  | nil => simp [idxOf?] at h
  | cons b t ih =>
      by_cases hb : b = a
      · simp [idxOf?, hb] at h
        simp only [List.length_cons]
        omega
      · simp [idxOf?, hb] at h
        rcases h with ⟨j, hj, rfl⟩
        have := ih hj
        simp only [List.length_cons]
        omega

theorem removeFirst_eq_eraseIdx {l : List Nat} {a i : Nat}
    (h : idxOf? l a = some i) : removeFirst l a = l.eraseIdx i := by
  induction l generalizing i with
  | nil => simp [idxOf?] at h
  | cons b t ih =>
      by_cases hb : b = a
      · simp [idxOf?, hb] at h
        simp [removeFirst, hb, ← h]
      · simp [idxOf?, hb] at h
        rcases h with ⟨j, hj, rfl⟩
        simp [removeFirst, hb, ih hj]

theorem mem_of_mem_removeFirst {l : List Nat} {a x : Nat}
    (h : x ∈ removeFirst l a) : x ∈ l := by
  induction l with
  | nil => simp [removeFirst] at h
  | cons b t ih =>
      by_cases hb : b = a
      · simp [removeFirst, hb] at h
        simp [h]
      · simp [removeFirst, hb] at h
        rcases h with h | h
        · simp [h]
        · simp [ih h]

theorem insertAt_append {α : Type} (x : α) (l1 l2 : List α) :
    insertAt l1.length x (l1 ++ l2) = l1 ++ x :: l2 := by
  induction l1 with
  | nil => rfl
  | cons b t ih => simp [insertAt, ih]

theorem map_eraseIdx {α β : Type} (f : α → β) (l : List α) (i : Nat) :
    (l.eraseIdx i).map f = (l.map f).eraseIdx i := by
  induction l generalizing i with
  | nil => rfl
  | cons b t ih =>
      cases i with
      | zero => rfl
      | succ j => simp [List.eraseIdx_cons_succ, ih]

theorem eraseIdx_eraseIdx_pred {α : Type} (l : List α) (i : Nat)
    (h1 : 1 ≤ i) (h2 : i < l.length) :
    (l.eraseIdx i).eraseIdx (i - 1) = l.take (i - 1) ++ l.drop (i + 1) := by
  induction l generalizing i with
  | nil => simp at h2
  | cons b t ih =>
      cases i with
      | zero => omega
      | succ j =>
          cases j with
          | zero =>
              cases t with
              | nil => simp at h2
              | cons c t' => simp
          | succ k =>
              have hk2 : k + 1 < t.length := by
                simp at h2
                omega
              have ih' := ih (k + 1) (by omega) hk2
              rw [Nat.add_sub_cancel] at ih' ⊢
              simp only [List.eraseIdx_cons_succ, List.take_succ_cons,
                List.drop_succ_cons]
              rw [ih']
              rfl

/-! ### zipTail lemmas: how consecutive anchor pairs respond to chain
surgery -/

theorem length_zipTail (l : List Nat) : (zipTail l).length = l.length - 1 := by
  unfold zipTail
  rw [List.length_zip, List.length_tail]
  omega

theorem zipTail_append_last {l : List Nat} {b : Nat}
    (h : l.getLast? = some b) (a : Nat) :
    zipTail (l ++ [a]) = zipTail l ++ [(b, a)] := by
  induction l with
  | nil => simp at h
  | cons x t ih =>
      cases t with
      | nil =>
          simp at h
          simp [zipTail, h]
      | cons y t' =>
          have h' : (y :: t').getLast? = some b := by
            simpa [List.getLast?_cons_cons] using h
          have := ih h'
          simp only [zipTail, List.cons_append, List.tail_cons, List.zip_cons_cons] at this ⊢
          rw [this]

theorem zipTail_eraseIdx_zero (l : List Nat) :
    zipTail (l.eraseIdx 0) = (zipTail l).eraseIdx 0 := by
  match l with
  | [] => rfl
  | [a] => rfl
  | a :: b :: t => simp [zipTail]

theorem zipTail_head_cons {a b : Nat} {t : List Nat} :
    zipTail (a :: b :: t) = (a, b) :: zipTail (b :: t) := by
  simp [zipTail]

theorem zipTail_dropLast (l : List Nat) :
    zipTail l.dropLast = (zipTail l).dropLast := by
  induction l with
  | nil => rfl
  | cons a t ih =>
      cases t with
      | nil => rfl
      | cons b t' =>
          cases t' with
          | nil => simp [zipTail]
          | cons c t'' =>
              have h1 : (a :: b :: c :: t'').dropLast
                  = a :: (b :: c :: t'').dropLast := by simp
              have h2 : (b :: c :: t'').dropLast
                  = b :: (c :: t'').dropLast := by simp
              rw [h1, h2, zipTail_head_cons, ← h2, ih]
              have h3 : zipTail (a :: b :: c :: t'')
                  = (a, b) :: zipTail (b :: c :: t'') := zipTail_head_cons
              rw [h3]
              have h4 : zipTail (b :: c :: t'') ≠ [] := by
                rw [zipTail_head_cons]
                simp
              rw [List.dropLast_cons_of_ne_nil h4]

theorem zipTail_eraseIdx_interior (l : List Nat) (i : Nat)
    (h1 : 1 ≤ i) (h2 : i + 1 < l.length) :
    zipTail (l.eraseIdx i) =
      (zipTail l).take (i - 1) ++
        (l.getD (i - 1) 0, l.getD (i + 1) 0) :: (zipTail l).drop (i + 1) := by
  induction l generalizing i with
  | nil => simp at h2
  | cons a t ih =>
      cases i with
      | zero => omega
      | succ j =>
          cases j with
          | zero =>
              cases t with
              | nil => simp at h2
              | cons b t' =>
                  cases t' with
                  | nil =>
                      simp only [List.length_cons, List.length_nil] at h2
                      omega
                  | cons c t'' =>
                      simp only [List.eraseIdx_cons_succ, List.eraseIdx_cons_zero]
                      rw [zipTail_head_cons, zipTail_head_cons, zipTail_head_cons]
                      simp
          | succ k =>
              cases t with
              | nil => simp at h2
              | cons b t'' =>
                  have hlen2 : k + 1 + 1 < (b :: t'').length := by
                    simp at h2 ⊢
                    omega
                  have ih' := ih (k + 1) (by omega) hlen2
                  rw [Nat.add_sub_cancel] at ih' ⊢
                  have eB : (b :: t'').eraseIdx (k + 1) = b :: t''.eraseIdx k := by
                    simp
                  have eA : (a :: b :: t'').eraseIdx (k + 1 + 1)
                      = a :: (b :: t'').eraseIdx (k + 1) := by simp
                  rw [eA, eB, zipTail_head_cons, ← eB, ih', zipTail_head_cons]
                  simp [List.take_succ_cons, List.drop_succ_cons,
                    List.getD_cons_succ]

theorem zipTail_getD {l : List Nat} {i : Nat} (h : i + 1 < l.length) :
    (zipTail l).getD i (0, 0) = (l.getD i 0, l.getD (i + 1) 0) := by
  induction l generalizing i with
  | nil => simp at h
  | cons a t ih =>
      cases t with
      | nil => simp at h
      | cons b t' =>
          rw [zipTail_head_cons]
          cases i with
          | zero => simp
          | succ j =>
              have hj : j + 1 < (b :: t').length := by
                simp at h ⊢
                omega
              simpa using ih hj

theorem getD_mem_of_lt {α : Type} {l : List α} {i : Nat} (d : α)
    (h : i < l.length) : l.getD i d ∈ l := by
  induction l generalizing i with
  | nil => simp at h
  | cons b t ih =>
      cases i with
      | zero => simp
      | succ j =>
          have hj : j < t.length := by
            simp at h
            omega
          have hm := ih hj
          simp only [List.getD_cons_succ]
          exact List.mem_cons_of_mem b hm

/-! ### Refresh lemmas: `update_graphics` re-establishes the synced state
and changes no identity -/

theorem segRefresh_idem (st : List (Nat × Pt)) (s : Segment) :
    segRefresh st (segRefresh st s) = segRefresh st s := rfl

theorem segEnds_segRefresh (st : List (Nat × Pt)) (s : Segment) :
    segEnds (segRefresh st s) = segEnds s := rfl

theorem map_segEnds_refresh (st : List (Nat × Pt)) (l : List Segment) :
    (l.map (segRefresh st)).map segEnds = l.map segEnds := by
  rw [List.map_map]
  rfl

theorem adj_update_graphics {m : CurveManager} (h : Adj m) :
    Adj (update_graphics m) := by
  unfold Adj update_graphics
  simpa [map_segEnds_refresh] using h

theorem idsOk_update_graphics {m : CurveManager} (h : IdsOk m) :
    IdsOk (update_graphics m) := by
  obtain ⟨hb, hp, hs⟩ := h
  refine ⟨hb, hp, ?_⟩
  intro s hsm
  simp only [update_graphics, List.mem_map] at hsm
  rcases hsm with ⟨t, ht, rfl⟩
  exact hs t ht

theorem inv_update_graphics {m : CurveManager} (ha : Adj m) (hi : IdsOk m) :
    Inv (update_graphics m) :=
  ⟨adj_update_graphics ha, idsOk_update_graphics hi⟩

theorem segments_length_of_adj {m : CurveManager} (h : Adj m) :
    m.segments.length = m.points.length - 1 := by
  have h' := congrArg List.length h
  simpa [length_zipTail] using h'

theorem mem_storeIds_append_left {l : List (Nat × Pt)} {i : Nat}
    (h : i ∈ storeIds l) (ext : List (Nat × Pt)) : i ∈ storeIds (l ++ ext) := by
  rw [storeIds_append]
  exact List.mem_append_left _ h

/-! ### Invariant preservation for each operation -/

theorem inv_add {m : CurveManager} (pos : Pt) (h : Inv m) :
    Inv (add_point m pos) := by
  obtain ⟨hadj, hbound, hpts, hsegs⟩ := h
  unfold add_point
  cases hlast : m.points.getLast? with
  | none =>
      have hpe : m.points = [] := by simpa using hlast
      have hse : m.segments = [] := by
        have h1 : m.segments.map segEnds = [] := by
          rw [hadj, hpe]
          rfl
        simpa using h1
      refine inv_update_graphics ?_ ?_
      · show List.map segEnds m.segments = zipTail (m.points ++ [m.nextId])
        rw [hse, hpe]
        rfl
      · unfold IdsOk
        dsimp only [IdsOk]
        refine ⟨?_, ?_, ?_⟩
        · intro i hi
          rw [storeIds_append] at hi
          rcases List.mem_append.mp hi with hi | hi
          · exact Nat.lt_succ_of_lt (hbound i hi)
          · simp [storeIds] at hi
            omega
        · intro a ha
          rcases List.mem_append.mp ha with ha | ha
          · rw [storeIds_append]
            exact List.mem_append_left _ (hpts a ha)
          · simp at ha
            rw [storeIds_append]
            refine List.mem_append_right _ ?_
            simp [storeIds, ha]
        · intro s hs
          rw [hse] at hs
          simp at hs
  | some startId =>
      have hstartmem : startId ∈ m.points := List.mem_of_getLast?_eq_some hlast
      refine inv_update_graphics ?_ ?_
      · show List.map segEnds (m.segments ++ [_]) = zipTail (m.points ++ [m.nextId])
        rw [List.map_append, zipTail_append_last hlast, hadj]
        rfl
      · dsimp only [IdsOk]
        refine ⟨?_, ?_, ?_⟩
        · intro i hi
          rw [storeIds_append, storeIds_append] at hi
          rcases List.mem_append.mp hi with hi | hi
          · rcases List.mem_append.mp hi with hi | hi
            · have := hbound i hi
              omega
            · simp [storeIds] at hi
              omega
          · simp [storeIds] at hi
            rcases hi with hi | hi <;> omega
        · intro a ha
          rcases List.mem_append.mp ha with ha | ha
          · exact mem_storeIds_append_left (mem_storeIds_append_left (hpts a ha) _) _
          · simp at ha
            rw [storeIds_append]
            refine List.mem_append_left _ ?_
            rw [storeIds_append]
            refine List.mem_append_right _ ?_
            simp [storeIds, ha]
        · intro s hs
          rcases List.mem_append.mp hs with hs | hs
          · obtain ⟨i1, i2, i3, i4⟩ := hsegs s hs
            exact ⟨mem_storeIds_append_left (mem_storeIds_append_left i1 _) _,
                   mem_storeIds_append_left (mem_storeIds_append_left i2 _) _,
                   mem_storeIds_append_left (mem_storeIds_append_left i3 _) _,
                   mem_storeIds_append_left (mem_storeIds_append_left i4 _) _⟩
          · simp at hs
            subst hs
            refine ⟨mem_storeIds_append_left
              (mem_storeIds_append_left (hpts _ hstartmem) _) _, ?_, ?_, ?_⟩
            · rw [storeIds_append]
              refine List.mem_append_right _ ?_
              simp [storeIds, mkSegment, segRefresh]
            · rw [storeIds_append]
              refine List.mem_append_right _ ?_
              simp [storeIds, mkSegment, segRefresh]
            · rw [storeIds_append]
              refine List.mem_append_left _ ?_
              rw [storeIds_append]
              refine List.mem_append_right _ ?_
              simp [storeIds, mkSegment, segRefresh]

theorem insertAt_take {α : Type} (x : α) (l l2 : List α) (n : Nat)
    (h : n ≤ l.length) :
    insertAt n x (l.take n ++ l2) = l.take n ++ x :: l2 := by
  have htl : (l.take n).length = n := List.length_take_of_le h
  calc insertAt n x (l.take n ++ l2)
      = insertAt (l.take n).length x (l.take n ++ l2) := by rw [htl]
    _ = l.take n ++ x :: l2 := insertAt_append x _ l2

theorem mem_insertAt {α : Type} {x a : α} {l : List α} {n : Nat}
    (h : x ∈ insertAt n a l) : x = a ∨ x ∈ l := by
  induction l generalizing n with
  | nil =>
      cases n with
      | zero => simpa [insertAt] using h
      | succ k => simpa [insertAt] using h
  | cons b t ih =>
      cases n with
      | zero =>
          simp [insertAt] at h
          rcases h with h | h | h
          · exact Or.inl h
          · exact Or.inr (by simp [h])
          · exact Or.inr (by simp [h])
      | succ k =>
          simp [insertAt] at h
          rcases h with h | h
          · exact Or.inr (by simp [h])
          · rcases ih h with h | h
            · exact Or.inl h
            · exact Or.inr (by simp [h])

theorem update_graphics_idem (m : CurveManager) :
    update_graphics (update_graphics m) = update_graphics m := by
  unfold update_graphics
  dsimp only
  rw [List.map_map]
  rw [show List.map (segRefresh m.store ∘ segRefresh m.store) m.segments
      = List.map (segRefresh m.store) m.segments from
    List.map_congr_left (fun s _ => segRefresh_idem m.store s)]

theorem move_point_same {m : CurveManager} {pid : Nat} {q : Pt}
    (h : lookupPos m.store pid = q) : move_point m pid q = m := by
  unfold move_point
  rw [if_pos h]

theorem move_point_not_mem {m : CurveManager} {pid : Nat} {q : Pt}
    (hmem : pid ∉ storeIds m.store) (hq : ¬ lookupPos m.store pid = q) :
    move_point m pid q = update_graphics m := by
  unfold move_point
  rw [if_neg hq, storeSet_not_mem hmem q]
  rfl

theorem move_point_store {m : CurveManager} {pid : Nat} {q : Pt}
    (hq : ¬ lookupPos m.store pid = q) :
    (move_point m pid q).store = storeSet m.store pid q := by
  unfold move_point
  rw [if_neg hq]

theorem move_point_points (m : CurveManager) (pid : Nat) (p : Pt) :
    (move_point m pid p).points = m.points := by
  unfold move_point
  split <;> rfl

theorem inv_move {m : CurveManager} (pid : Nat) (p : Pt) (h : Inv m) :
    Inv (move_point m pid p) := by
  obtain ⟨hadj, hbound, hpts, hsegs⟩ := h
  unfold move_point
  split
  · exact ⟨hadj, hbound, hpts, hsegs⟩
  · obtain ⟨hadj2, hbound2, hpts2, hsegs2⟩ :=
      inv_update_graphics hadj ⟨hbound, hpts, hsegs⟩
    refine ⟨hadj2, ?_⟩
    dsimp only [IdsOk]
    rw [storeIds_storeSet]
    exact ⟨hbound2, hpts2, hsegs2⟩

theorem inv_remove {m : CurveManager} (pid : Nat) (h : Inv m) :
    Inv (remove_point m pid) := by
  obtain ⟨hadj, hbound, hpts, hsegs⟩ := h
  have hslen : m.segments.length = m.points.length - 1 :=
    segments_length_of_adj hadj
  unfold remove_point
  split
  · exact ⟨hadj, hbound, hpts, hsegs⟩
  · rename_i hlen
    split
    · exact ⟨hadj, hbound, hpts, hsegs⟩
    · rename_i idx hidx
      have hidxlt : idx < m.points.length := idxOf?_lt_length hidx
      have herase : removeFirst m.points pid = m.points.eraseIdx idx :=
        removeFirst_eq_eraseIdx hidx
      split
      · rename_i h0
        subst h0
        have hpos : 0 < m.segments.length := by omega
        dsimp only
        rw [if_pos hpos]
        refine inv_update_graphics ?_ ?_
        · show List.map segEnds (m.segments.eraseIdx 0)
              = zipTail (removeFirst m.points pid)
          rw [herase, map_eraseIdx, hadj, ← zipTail_eraseIdx_zero]
        · dsimp only [IdsOk]
          refine ⟨hbound, ?_, ?_⟩
          · intro a ha
            exact hpts a (mem_of_mem_removeFirst ha)
          · intro s hs
            exact hsegs s (List.mem_of_mem_eraseIdx hs)
      · rename_i h0
        split
        · rename_i hN
          refine inv_update_graphics ?_ ?_
          · show List.map segEnds m.segments.dropLast
                = zipTail (removeFirst m.points pid)
            have hdl : m.points.eraseIdx idx = m.points.dropLast := by
              have hip : idx + 1 = m.points.length := by omega
              exact (List.dropLast_eq_eraseIdx hip).symm
            rw [herase, hdl, zipTail_dropLast, ← hadj, List.map_dropLast]
          · dsimp only [IdsOk]
            refine ⟨hbound, ?_, ?_⟩
            · intro a ha
              exact hpts a (mem_of_mem_removeFirst ha)
            · intro s hs
              exact hsegs s (List.dropLast_subset m.segments hs)
        · rename_i hN
          have h1 : 1 ≤ idx := by omega
          have h2 : idx + 1 < m.points.length := by omega
          have hidxseg : idx < m.segments.length := by omega
          dsimp only
          refine inv_update_graphics ?_ ?_
          · show List.map segEnds
                (insertAt (idx - 1) _ ((m.segments.eraseIdx idx).eraseIdx (idx - 1)))
                = zipTail (removeFirst m.points pid)
            rw [eraseIdx_eraseIdx_pred m.segments idx h1 hidxseg]
            rw [insertAt_take _ m.segments _ (idx - 1) (by omega)]
            rw [List.map_append, List.map_cons, List.map_take, List.map_drop, hadj]
            rw [herase, zipTail_eraseIdx_interior m.points idx h1 h2]
            rfl
          · dsimp only [IdsOk]
            refine ⟨?_, ?_, ?_⟩
            · intro i hi
              rw [storeIds_append] at hi
              rcases List.mem_append.mp hi with hi | hi
              · have := hbound i hi
                omega
              · simp [storeIds] at hi
                rcases hi with hi | hi <;> omega
            · intro a ha
              exact mem_storeIds_append_left
                (hpts a (mem_of_mem_removeFirst ha)) _
            · intro s hs
              rcases mem_insertAt hs with hs | hs
              · subst hs
                refine ⟨?_, ?_, ?_, ?_⟩
                · exact mem_storeIds_append_left
                    (hpts _ (getD_mem_of_lt 0 (by omega))) _
                · rw [storeIds_append]
                  refine List.mem_append_right _ ?_
                  simp [storeIds, mkSegment, segRefresh]
                · rw [storeIds_append]
                  refine List.mem_append_right _ ?_
                  simp [storeIds, mkSegment, segRefresh]
                · exact mem_storeIds_append_left
                    (hpts _ (getD_mem_of_lt 0 (by omega))) _
              · have hs2 := List.mem_of_mem_eraseIdx (List.mem_of_mem_eraseIdx hs)
                obtain ⟨i1, i2, i3, i4⟩ := hsegs s hs2
                exact ⟨mem_storeIds_append_left i1 _, mem_storeIds_append_left i2 _,
                       mem_storeIds_append_left i3 _, mem_storeIds_append_left i4 _⟩

theorem inv_applyOp {m : CurveManager} (op : Op) (h : Inv m) :
    Inv (applyOp m op) := by
  cases op with
  | add pos => exact inv_add pos h
  | remove pid => exact inv_remove pid h
  | move pid pos => exact inv_move pid pos h

theorem inv_init : Inv initManager := by
  refine ⟨rfl, ?_, ?_, ?_⟩ <;> intro x hx <;> simp [initManager, storeIds] at hx

theorem inv_runOps (ops : List Op) : Inv (runOps ops) := by
  have hgen : ∀ (l : List Op) (m : CurveManager), Inv m → Inv (l.foldl applyOp m) := by
    intro l
    induction l with
    | nil => intro m hm; exact hm
    | cons o t ih =>
        intro m hm
        exact ih _ (inv_applyOp o hm)
  exact hgen ops initManager inv_init

theorem inv_reachable {m : CurveManager} (h : Reachable m) : Inv m := by
  rcases h with ⟨ops, rfl⟩
  exact inv_runOps ops

/-! ### The adjacency invariant read off elementwise -/

theorem adj_getD {segs : List Segment} {pts : List Nat}
    (h : segs.map segEnds = zipTail pts) {i : Nat} (hi : i < segs.length) :
    (segs.getD i dummySeg).startP = pts.getD i 0 ∧
    (segs.getD i dummySeg).endP = pts.getD (i + 1) 0 := by
  induction segs generalizing pts i with
  | nil => simp at hi
  | cons s t ih =>
      cases pts with
      | nil => simp [zipTail] at h
      | cons a pts' =>
          cases pts' with
          | nil => simp [zipTail] at h
          | cons b pts'' =>
              rw [zipTail_head_cons] at h
              simp only [List.map_cons, List.cons.injEq] at h
              obtain ⟨hse, ht⟩ := h
              cases i with
              | zero =>
                  simp only [List.getD_cons_zero]
                  have hfst : s.startP = a := congrArg Prod.fst hse
                  have hsnd : s.endP = b := congrArg Prod.snd hse
                  exact ⟨hfst, by simpa using hsnd⟩
              | succ j =>
                  have hj : j < t.length := by
                    simp at hi
                    omega
                  have hres := ih ht hj
                  simpa using hres

/-- C1: for every chain state reachable by any event sequence (anchor
adds, anchor removals, point moves), the number of stored segments equals
`max(number of anchors - 1, 0)`. -/
theorem spec_C1 (ops : List Op) :
    ((runOps ops).segments.length : Int)
      = max (((runOps ops).points.length : Int) - 1) 0 := by
  have h := segments_length_of_adj (inv_runOps ops).1
  omega

/-- C4: after any event sequence, segment `i` starts at anchor `i` and
ends at anchor `i + 1` of the chain (consecutive segments share their
common anchor), every segment's two anchor references are members of the
current chain, and its two handle references are live store items: no
dangling references, no orphaned handles. -/
theorem spec_C4 (ops : List Op) (i : Nat)
    (h : i < (runOps ops).segments.length) :
    ((runOps ops).segments.getD i dummySeg).startP = (runOps ops).points.getD i 0 ∧
    ((runOps ops).segments.getD i dummySeg).endP = (runOps ops).points.getD (i + 1) 0 ∧
    ((runOps ops).segments.getD i dummySeg).startP ∈ (runOps ops).points ∧
    ((runOps ops).segments.getD i dummySeg).endP ∈ (runOps ops).points ∧
    ((runOps ops).segments.getD i dummySeg).c1 ∈ storeIds (runOps ops).store ∧
    ((runOps ops).segments.getD i dummySeg).c2 ∈ storeIds (runOps ops).store := by
  obtain ⟨hadj, hbound, hpts, hsegs⟩ := inv_runOps ops
  have hlen := segments_length_of_adj hadj
  obtain ⟨hstart, hend⟩ := adj_getD hadj h
  have hmem : (runOps ops).segments.getD i dummySeg ∈ (runOps ops).segments :=
    getD_mem_of_lt dummySeg h
  obtain ⟨_, hc1, hc2, _⟩ := hsegs _ hmem
  refine ⟨hstart, hend, ?_, ?_, hc1, hc2⟩
  · rw [hstart]
    exact getD_mem_of_lt 0 (by omega)
  · rw [hend]
    exact getD_mem_of_lt 0 (by omega)

/-! ### Frame lemmas: refreshing against an extended store renders every
old segment exactly as the unextended store would -/

theorem segRefresh_append {store ext : List (Nat × Pt)} {s : Segment}
    (h1 : s.startP ∈ storeIds store) (h2 : s.c1 ∈ storeIds store)
    (h3 : s.c2 ∈ storeIds store) (h4 : s.endP ∈ storeIds store) :
    segRefresh (store ++ ext) s = segRefresh store s := by
  unfold segRefresh
  rw [lookupPos_append_left h1, lookupPos_append_left h2,
      lookupPos_append_left h3, lookupPos_append_left h4]

theorem map_segRefresh_append {m : CurveManager}
    (hids : IdsOk m) (ext : List (Nat × Pt))
    {l : List Segment} (hl : ∀ s ∈ l, s ∈ m.segments) :
    l.map (segRefresh (m.store ++ ext)) = l.map (segRefresh m.store) := by
  refine List.map_congr_left ?_
  intro s hs
  obtain ⟨i1, i2, i3, i4⟩ := hids.2.2 s (hl s hs)
  exact segRefresh_append i1 i2 i3 i4

theorem map_segRefresh_self {store : List (Nat × Pt)} {l : List Segment}
    (h : ∀ t ∈ l, segRefresh store t = t) :
    l.map (segRefresh store) = l :=
  (List.map_congr_left h).trans (List.map_id l)

theorem getD_append_left {α : Type} {l1 l2 : List α} {j : Nat}
    (h : j < l1.length) (d : α) : (l1 ++ l2).getD j d = l1.getD j d := by
  simp [List.getD_eq_getElem?_getD, List.getElem?_append_left h]

theorem getD_append_right {α : Type} {l1 l2 : List α} {j : Nat}
    (h : l1.length ≤ j) (d : α) :
    (l1 ++ l2).getD j d = l2.getD (j - l1.length) d := by
  simp [List.getD_eq_getElem?_getD, List.getElem?_append_right h]

theorem getD_map_lt {α β : Type} (f : α → β) {l : List α} {j : Nat}
    (h : j < l.length) (d : β) (d0 : α) :
    (l.map f).getD j d = f (l.getD j d0) := by
  induction l generalizing j with
  | nil => simp at h
  | cons b t ih =>
      cases j with
      | zero => rfl
      | succ k =>
          have hk : k < t.length := by
            simp at h
            omega
          simpa using ih hk

theorem getD_take_lt {α : Type} {l : List α} {n j : Nat} (h : j < n) (d : α) :
    (l.take n).getD j d = l.getD j d := by
  simp [List.getD_eq_getElem?_getD, List.getElem?_take_of_lt h]

theorem getD_drop {α : Type} (l : List α) (n j : Nat) (d : α) :
    (l.drop n).getD j d = l.getD (n + j) d := by
  simp [List.getD_eq_getElem?_getD, List.getElem?_drop]

theorem zipTail_getLast?_snd {l : List Nat} {pr : Nat × Nat}
    (h : (zipTail l).getLast? = some pr) : l.getLast? = some pr.2 := by
  induction l with
  | nil => simp [zipTail] at h
  | cons a t ih =>
      cases t with
      | nil => simp [zipTail] at h
      | cons b t' =>
          rw [zipTail_head_cons] at h
          cases t' with
          | nil =>
              simp [zipTail] at h
              simp [← h]
          | cons c t'' =>
              rw [zipTail_head_cons, List.getLast?_cons_cons] at h
              have hres := ih (by rw [zipTail_head_cons]; exact h)
              rw [List.getLast?_cons_cons]
              exact hres

/-- The end anchor of the last segment is the last anchor of the chain. -/
theorem last_segment_endP {m : CurveManager} (hadj : Adj m) {ls : Segment}
    (hls : m.segments.getLast? = some ls) {prev : Nat}
    (hlast : m.points.getLast? = some prev) : ls.endP = prev := by
  have h1 : (m.segments.map segEnds).getLast? = some (segEnds ls) := by
    rw [List.getLast?_map, hls]
    rfl
  rw [hadj] at h1
  have h2 := zipTail_getLast?_snd h1
  rw [hlast] at h2
  have h3 : prev = (segEnds ls).2 := Option.some.inj h2
  exact h3.symm

/-- C2: appending an anchor to a nonempty chain creates exactly one new
segment from the previous last anchor `prev` to the new anchor (the old
segments survive, re-rendered by the trailing `update_graphics` from their
items' unchanged positions; when their caches were already current they
survive verbatim).  The new segment's end-side handle `control_two` is
placed at the new anchor plus `(-50, +50)`.  Its start-side handle
`control_one` is placed at `prev` plus `(+50, +50)` when no segment
existed yet, and otherwise at the mirror of the previous segment's
end-side handle through the shared anchor,
`prev.position - (priorSegment.endHandle.position - prev.position)`; the
prior segment indeed ends at `prev`. -/
theorem spec_C2 {m : CurveManager} {prev : Nat} (pos : Pt)
    (hR : Reachable m) (hlast : m.points.getLast? = some prev) :
    ∃ seg : Segment,
      (add_point m pos).points = m.points ++ [m.nextId] ∧
      (add_point m pos).segments = m.segments.map (segRefresh m.store) ++ [seg] ∧
      ((∀ t ∈ m.segments, segRefresh m.store t = t) →
        (add_point m pos).segments = m.segments ++ [seg]) ∧
      seg.startP = prev ∧ seg.endP = m.nextId ∧
      seg.c1 ∉ storeIds m.store ∧ seg.c2 ∉ storeIds m.store ∧
      lookupPos (add_point m pos).store m.nextId = pos ∧
      lookupPos (add_point m pos).store seg.c2 = ⟨pos.x - 50, pos.y + 50⟩ ∧
      lookupPos (add_point m pos).store prev = lookupPos m.store prev ∧
      (m.segments = [] →
        lookupPos (add_point m pos).store seg.c1
          = ⟨(lookupPos m.store prev).x + 50, (lookupPos m.store prev).y + 50⟩) ∧
      (∀ ls, m.segments.getLast? = some ls →
        ls.endP = prev ∧
        lookupPos (add_point m pos).store seg.c1
          = ⟨(lookupPos m.store prev).x
              - ((lookupPos m.store ls.c2).x - (lookupPos m.store prev).x),
             (lookupPos m.store prev).y
              - ((lookupPos m.store ls.c2).y - (lookupPos m.store prev).y)⟩) := by
  obtain ⟨hadj, hbound, hpts, hsegs⟩ := inv_reachable hR
  have hprevstore : prev ∈ storeIds m.store :=
    hpts prev (List.mem_of_getLast?_eq_some hlast)
  have hprev1 : prev ∈ storeIds (m.store ++ [(m.nextId, pos)]) :=
    mem_storeIds_append_left hprevstore _
  have haid : m.nextId ∉ storeIds m.store := by
    intro hmem
    exact absurd (hbound _ hmem) (Nat.lt_irrefl _)
  have haid1 : m.nextId ∈ storeIds (m.store ++ [(m.nextId, pos)]) := by
    rw [storeIds_append]
    refine List.mem_append_right _ ?_
    simp [storeIds]
  have hc1id : m.nextId + 1 ∉ storeIds (m.store ++ [(m.nextId, pos)]) := by
    rw [storeIds_append]
    intro hmem
    rcases List.mem_append.mp hmem with hmem | hmem
    · have := hbound _ hmem
      omega
    · simp [storeIds] at hmem
  have hc2id : m.nextId + 2 ∉ storeIds (m.store ++ [(m.nextId, pos)]) := by
    rw [storeIds_append]
    intro hmem
    rcases List.mem_append.mp hmem with hmem | hmem
    · have := hbound _ hmem
      omega
    · simp [storeIds] at hmem
  have hne12 : ¬ (m.nextId + 1 = m.nextId + 2) := by omega
  have hlp1prev : lookupPos (m.store ++ [(m.nextId, pos)]) prev
      = lookupPos m.store prev := lookupPos_append_left hprevstore _
  unfold add_point
  rw [hlast]
  dsimp only
  cases hseg : m.segments.getLast? with
  | none =>
      have hsegnil : m.segments = [] := by simpa using hseg
      dsimp only
      rw [hlp1prev]
      refine ⟨mkSegment
          ((m.store ++ [(m.nextId, pos)]) ++
            [(m.nextId + 1, ⟨(lookupPos m.store prev).x + 50,
                             (lookupPos m.store prev).y + 50⟩),
             (m.nextId + 2, ⟨pos.x - 50, pos.y + 50⟩)])
          prev (m.nextId + 1) (m.nextId + 2) m.nextId,
        rfl, ?_, ?_, rfl, rfl, ?_, ?_, ?_, ?_, ?_, ?_, ?_⟩
      · show List.map _ (m.segments ++ [_])
            = m.segments.map (segRefresh m.store) ++ [_]
        rw [List.append_assoc, List.map_append,
          map_segRefresh_append ⟨hbound, hpts, hsegs⟩ _ (fun s hs => hs)]
        simp [mkSegment, segRefresh_idem]
      · intro hfresh
        show List.map _ (m.segments ++ [_]) = m.segments ++ [_]
        rw [List.append_assoc, List.map_append,
          map_segRefresh_append ⟨hbound, hpts, hsegs⟩ _ (fun s hs => hs),
          map_segRefresh_self hfresh]
        simp [mkSegment, segRefresh_idem]
      · show m.nextId + 1 ∉ storeIds m.store
        intro hmem
        have := hbound _ hmem
        omega
      · show m.nextId + 2 ∉ storeIds m.store
        intro hmem
        have := hbound _ hmem
        omega
      · dsimp only [update_graphics]
        rw [lookupPos_append_left haid1, lookupPos_append_right haid]
        simp [lookupPos]
      · dsimp only [update_graphics, mkSegment, segRefresh]
        rw [lookupPos_append_right hc2id]
        simp [lookupPos, hne12]
      · dsimp only [update_graphics]
        rw [lookupPos_append_left hprev1, hlp1prev]
      · intro _
        dsimp only [update_graphics, mkSegment, segRefresh]
        rw [lookupPos_append_right hc1id]
        simp [lookupPos]
      · intro ls hls
        exact absurd hls (by simp)
  | some ls =>
      have hlsmem : ls ∈ m.segments := List.mem_of_getLast?_eq_some hseg
      have hlsc2 : ls.c2 ∈ storeIds m.store := (hsegs ls hlsmem).2.2.1
      have hlp1c2 : lookupPos (m.store ++ [(m.nextId, pos)]) ls.c2
          = lookupPos m.store ls.c2 := lookupPos_append_left hlsc2 _
      dsimp only
      rw [hlp1prev, hlp1c2]
      refine ⟨mkSegment
          ((m.store ++ [(m.nextId, pos)]) ++
            [(m.nextId + 1,
              ⟨(lookupPos m.store prev).x
                 - ((lookupPos m.store ls.c2).x - (lookupPos m.store prev).x),
               (lookupPos m.store prev).y
                 - ((lookupPos m.store ls.c2).y - (lookupPos m.store prev).y)⟩),
             (m.nextId + 2, ⟨pos.x - 50, pos.y + 50⟩)])
          prev (m.nextId + 1) (m.nextId + 2) m.nextId,
        rfl, ?_, ?_, rfl, rfl, ?_, ?_, ?_, ?_, ?_, ?_, ?_⟩
      · show List.map _ (m.segments ++ [_])
            = m.segments.map (segRefresh m.store) ++ [_]
        rw [List.append_assoc, List.map_append,
          map_segRefresh_append ⟨hbound, hpts, hsegs⟩ _ (fun s hs => hs)]
        simp [mkSegment, segRefresh_idem]
      · intro hfresh
        show List.map _ (m.segments ++ [_]) = m.segments ++ [_]
        rw [List.append_assoc, List.map_append,
          map_segRefresh_append ⟨hbound, hpts, hsegs⟩ _ (fun s hs => hs),
          map_segRefresh_self hfresh]
        simp [mkSegment, segRefresh_idem]
      · show m.nextId + 1 ∉ storeIds m.store
        intro hmem
        have := hbound _ hmem
        omega
      · show m.nextId + 2 ∉ storeIds m.store
        intro hmem
        have := hbound _ hmem
        omega
      · dsimp only [update_graphics]
        rw [lookupPos_append_left haid1, lookupPos_append_right haid]
        simp [lookupPos]
      · dsimp only [update_graphics, mkSegment, segRefresh]
        rw [lookupPos_append_right hc2id]
        simp [lookupPos, hne12]
      · dsimp only [update_graphics]
        rw [lookupPos_append_left hprev1, hlp1prev]
      · intro hnil
        rw [hnil] at hseg
        exact absurd hseg (by simp)
      · intro ls' hls'
        have hlseq : ls = ls' := Option.some.inj hls'
        subst hlseq
        refine ⟨last_segment_endP hadj hseg hlast, ?_⟩
        dsimp only [update_graphics, mkSegment, segRefresh]
        rw [lookupPos_append_right hc1id]
        simp [lookupPos]

/-- Shared characterization of `remove_point` on an interior anchor: the
anchor leaves the chain, the two adjacent segments disappear, and exactly
one replacement segment with two brand-new default-offset handles joins
the former neighbors; every pre-existing item keeps its position, and the
surviving segments are re-rendered by the trailing `update_graphics` from
those unchanged positions (verbatim survival when their caches were
already current). -/
theorem remove_interior_spec {m : CurveManager} {pid idx : Nat}
    (hinv : Inv m) (hidx : idxOf? m.points pid = some idx)
    (h1 : 0 < idx) (h2 : idx + 1 < m.points.length) :
    (remove_point m pid).points = m.points.eraseIdx idx ∧
    ∃ rep : Segment,
      (remove_point m pid).segments
        = (m.segments.take (idx - 1)).map (segRefresh m.store)
            ++ rep :: (m.segments.drop (idx + 1)).map (segRefresh m.store) ∧
      ((∀ t ∈ m.segments, segRefresh m.store t = t) →
        (remove_point m pid).segments
          = m.segments.take (idx - 1) ++ rep :: m.segments.drop (idx + 1)) ∧
      rep.startP = m.points.getD (idx - 1) 0 ∧
      rep.endP = m.points.getD (idx + 1) 0 ∧
      rep.c1 ∉ storeIds m.store ∧ rep.c2 ∉ storeIds m.store ∧ rep.c1 ≠ rep.c2 ∧
      lookupPos (remove_point m pid).store rep.c1
        = ⟨(lookupPos m.store (m.points.getD (idx - 1) 0)).x + 50,
           (lookupPos m.store (m.points.getD (idx - 1) 0)).y + 50⟩ ∧
      lookupPos (remove_point m pid).store rep.c2
        = ⟨(lookupPos m.store (m.points.getD (idx + 1) 0)).x - 50,
           (lookupPos m.store (m.points.getD (idx + 1) 0)).y + 50⟩ ∧
      (∀ i ∈ storeIds m.store,
        lookupPos (remove_point m pid).store i = lookupPos m.store i) := by
  obtain ⟨hadj, hbound, hpts, hsegs⟩ := hinv
  have hidxlt : idx < m.points.length := idxOf?_lt_length hidx
  have herase : removeFirst m.points pid = m.points.eraseIdx idx :=
    removeFirst_eq_eraseIdx hidx
  have hslen : m.segments.length = m.points.length - 1 :=
    segments_length_of_adj hadj
  have hidxseg : idx < m.segments.length := by omega
  have hnid : m.nextId ∉ storeIds m.store := by
    intro hmem
    exact absurd (hbound _ hmem) (Nat.lt_irrefl _)
  have hnid1 : m.nextId + 1 ∉ storeIds m.store := by
    intro hmem
    have := hbound _ hmem
    omega
  have hne : ¬ (m.nextId = m.nextId + 1) := by omega
  unfold remove_point
  rw [if_neg (by omega), hidx]
  dsimp only
  rw [if_neg (by omega), if_neg (by omega)]
  refine ⟨?_, ?_⟩
  · show removeFirst m.points pid = m.points.eraseIdx idx
    exact herase
  · refine ⟨mkSegment
        (m.store ++
          [(m.nextId, ⟨(lookupPos m.store (m.points.getD (idx - 1) 0)).x + 50,
                       (lookupPos m.store (m.points.getD (idx - 1) 0)).y + 50⟩),
           (m.nextId + 1, ⟨(lookupPos m.store (m.points.getD (idx + 1) 0)).x - 50,
                           (lookupPos m.store (m.points.getD (idx + 1) 0)).y + 50⟩)])
        (m.points.getD (idx - 1) 0) m.nextId (m.nextId + 1)
        (m.points.getD (idx + 1) 0),
      ?_, ?_, rfl, rfl, hnid, hnid1, hne, ?_, ?_, ?_⟩
    · show List.map _ (insertAt (idx - 1) _ ((m.segments.eraseIdx idx).eraseIdx (idx - 1)))
          = _
      rw [eraseIdx_eraseIdx_pred m.segments idx h1 hidxseg]
      rw [insertAt_take _ m.segments _ (idx - 1) (by omega)]
      rw [List.map_append, List.map_cons]
      rw [map_segRefresh_append ⟨hbound, hpts, hsegs⟩ _
        (fun s hs => List.mem_of_mem_take hs)]
      rw [map_segRefresh_append ⟨hbound, hpts, hsegs⟩ _
        (fun s hs => List.mem_of_mem_drop hs)]
      simp [mkSegment, segRefresh_idem]
    · intro hfresh
      show List.map _ (insertAt (idx - 1) _ ((m.segments.eraseIdx idx).eraseIdx (idx - 1)))
          = _
      rw [eraseIdx_eraseIdx_pred m.segments idx h1 hidxseg]
      rw [insertAt_take _ m.segments _ (idx - 1) (by omega)]
      rw [List.map_append, List.map_cons]
      rw [map_segRefresh_append ⟨hbound, hpts, hsegs⟩ _
        (fun s hs => List.mem_of_mem_take hs)]
      rw [map_segRefresh_append ⟨hbound, hpts, hsegs⟩ _
        (fun s hs => List.mem_of_mem_drop hs)]
      rw [map_segRefresh_self (fun t ht => hfresh t (List.mem_of_mem_take ht))]
      rw [map_segRefresh_self (fun t ht => hfresh t (List.mem_of_mem_drop ht))]
      simp [mkSegment, segRefresh_idem]
    · dsimp only [update_graphics, mkSegment, segRefresh]
      rw [lookupPos_append_right hnid]
      simp [lookupPos]
    · dsimp only [update_graphics, mkSegment, segRefresh]
      rw [lookupPos_append_right hnid1]
      simp [lookupPos, hne]
    · intro i hi
      dsimp only [update_graphics]
      exact lookupPos_append_left hi _

/-- C3: removing an interior anchor (chain position strictly between the
first and the last) from a reachable chain removes that anchor, deletes
exactly the two adjacent segments (the segment count drops by one while
two are removed and one is inserted), and inserts at that position exactly
one replacement segment joining the former predecessor and successor
anchors, whose two handles are brand-new items (not present before)
placed at the default offsets `(+50, +50)` from the predecessor and
`(-50, +50)` from the successor — not mirrored from the deleted segments.
The surviving segments are re-rendered from their items' unchanged
positions (and survive verbatim when their caches were already
current). -/
theorem spec_C3 {m : CurveManager} {pid idx : Nat}
    (hR : Reachable m) (hidx : idxOf? m.points pid = some idx)
    (h1 : 0 < idx) (h2 : idx + 1 < m.points.length) :
    (remove_point m pid).points = m.points.eraseIdx idx ∧
    (remove_point m pid).points.length = m.points.length - 1 ∧
    (remove_point m pid).segments.length = m.segments.length - 1 ∧
    ∃ rep : Segment,
      (remove_point m pid).segments
        = (m.segments.take (idx - 1)).map (segRefresh m.store)
            ++ rep :: (m.segments.drop (idx + 1)).map (segRefresh m.store) ∧
      ((∀ t ∈ m.segments, segRefresh m.store t = t) →
        (remove_point m pid).segments
          = m.segments.take (idx - 1) ++ rep :: m.segments.drop (idx + 1)) ∧
      rep.startP = m.points.getD (idx - 1) 0 ∧
      rep.endP = m.points.getD (idx + 1) 0 ∧
      rep.c1 ∉ storeIds m.store ∧ rep.c2 ∉ storeIds m.store ∧ rep.c1 ≠ rep.c2 ∧
      lookupPos (remove_point m pid).store rep.c1
        = ⟨(lookupPos (remove_point m pid).store (m.points.getD (idx - 1) 0)).x + 50,
           (lookupPos (remove_point m pid).store (m.points.getD (idx - 1) 0)).y + 50⟩ ∧
      lookupPos (remove_point m pid).store rep.c2
        = ⟨(lookupPos (remove_point m pid).store (m.points.getD (idx + 1) 0)).x - 50,
           (lookupPos (remove_point m pid).store (m.points.getD (idx + 1) 0)).y + 50⟩ := by
  have hinv := inv_reachable hR
  obtain ⟨hpointseq, rep, hsegeq, hsegeq0, hstart, hend, hf1, hf2, hfne, hl1, hl2, hpre⟩ :=
    remove_interior_spec hinv hidx h1 h2
  obtain ⟨hadj, hbound, hpts, hsegs⟩ := hinv
  have hidxlt : idx < m.points.length := idxOf?_lt_length hidx
  have hslen : m.segments.length = m.points.length - 1 :=
    segments_length_of_adj hadj
  have hpredpos : lookupPos (remove_point m pid).store (m.points.getD (idx - 1) 0)
      = lookupPos m.store (m.points.getD (idx - 1) 0) :=
    hpre _ (hpts _ (getD_mem_of_lt 0 (by omega)))
  have hsuccpos : lookupPos (remove_point m pid).store (m.points.getD (idx + 1) 0)
      = lookupPos m.store (m.points.getD (idx + 1) 0) :=
    hpre _ (hpts _ (getD_mem_of_lt 0 (by omega)))
  have hlentake : (m.segments.take (idx - 1)).length = idx - 1 :=
    List.length_take_of_le (by omega)
  refine ⟨hpointseq, ?_, ?_, rep, hsegeq, hsegeq0, hstart, hend, hf1, hf2, hfne, ?_, ?_⟩
  · rw [hpointseq, List.length_eraseIdx_of_lt hidxlt]
  · have hlen := congrArg List.length hsegeq
    simp only [List.length_append, List.length_cons, List.length_take,
      List.length_drop, List.length_map] at hlen
    omega
  · rw [hpredpos]
    exact hl1
  · rw [hsuccpos]
    exact hl2

/-- C10: removing an interior anchor replaces only the two adjacent
segments: every segment not adjacent to the removed anchor survives with
the same identity — same anchor and handle items, all of which keep their
exact positions — merely re-rendered from those unchanged positions by the
trailing `update_graphics` (when its cache was already current it survives
as the very same stored value); segments before the removed pair keep
their index, segments after it shift down by one; and the single inserted
replacement segment is built from handle items that did not exist before
the call. -/
theorem spec_C10 {m : CurveManager} {pid idx : Nat}
    (hR : Reachable m) (hidx : idxOf? m.points pid = some idx)
    (h1 : 0 < idx) (h2 : idx + 1 < m.points.length) :
    (remove_point m pid).segments.length = m.segments.length - 1 ∧
    (∀ i ∈ storeIds m.store,
      lookupPos (remove_point m pid).store i = lookupPos m.store i) ∧
    (∀ j, j < idx - 1 →
      (remove_point m pid).segments.getD j dummySeg
        = segRefresh m.store (m.segments.getD j dummySeg)) ∧
    (∀ j, idx < j → j < m.segments.length →
      (remove_point m pid).segments.getD (j - 1) dummySeg
        = segRefresh m.store (m.segments.getD j dummySeg)) ∧
    ((∀ t ∈ m.segments, segRefresh m.store t = t) →
      (∀ j, j < idx - 1 →
        (remove_point m pid).segments.getD j dummySeg
          = m.segments.getD j dummySeg) ∧
      (∀ j, idx < j → j < m.segments.length →
        (remove_point m pid).segments.getD (j - 1) dummySeg
          = m.segments.getD j dummySeg)) ∧
    ∃ rep : Segment,
      (remove_point m pid).segments
        = (m.segments.take (idx - 1)).map (segRefresh m.store)
            ++ rep :: (m.segments.drop (idx + 1)).map (segRefresh m.store) ∧
      rep.c1 ∉ storeIds m.store ∧ rep.c2 ∉ storeIds m.store := by
  have hinv := inv_reachable hR
  obtain ⟨hpointseq, rep, hsegeq, hsegeq0, hstart, hend, hf1, hf2, hfne, hl1, hl2, hpre⟩ :=
    remove_interior_spec hinv hidx h1 h2
  obtain ⟨hadj, hbound, hpts, hsegs⟩ := hinv
  have hidxlt : idx < m.points.length := idxOf?_lt_length hidx
  have hslen : m.segments.length = m.points.length - 1 :=
    segments_length_of_adj hadj
  have hlentake : (m.segments.take (idx - 1)).length = idx - 1 :=
    List.length_take_of_le (by omega)
  have hleft : ∀ j, j < idx - 1 →
      (remove_point m pid).segments.getD j dummySeg
        = segRefresh m.store (m.segments.getD j dummySeg) := by
    intro j hj
    rw [hsegeq, getD_append_left (by rw [List.length_map, hlentake]; omega) dummySeg]
    rw [getD_map_lt (segRefresh m.store) (by rw [hlentake]; omega) dummySeg dummySeg]
    rw [getD_take_lt hj dummySeg]
  have hright : ∀ j, idx < j → j < m.segments.length →
      (remove_point m pid).segments.getD (j - 1) dummySeg
        = segRefresh m.store (m.segments.getD j dummySeg) := by
    intro j hji hjlen
    rw [hsegeq, getD_append_right (by rw [List.length_map, hlentake]; omega) dummySeg]
    rw [List.length_map, hlentake]
    have hj1 : j - 1 - (idx - 1) = (j - idx - 1) + 1 := by omega
    rw [hj1, List.getD_cons_succ]
    rw [getD_map_lt (segRefresh m.store) (by rw [List.length_drop]; omega) dummySeg dummySeg]
    rw [getD_drop m.segments (idx + 1) (j - idx - 1) dummySeg]
    have hj2 : idx + 1 + (j - idx - 1) = j := by omega
    rw [hj2]
  refine ⟨?_, hpre, hleft, hright, ?_, rep, hsegeq, hf1, hf2⟩
  · have hlen := congrArg List.length hsegeq
    simp only [List.length_append, List.length_cons, List.length_take,
      List.length_drop, List.length_map] at hlen
    omega
  · intro hfresh
    constructor
    · intro j hj
      rw [hleft j hj, hfresh _ (getD_mem_of_lt dummySeg (by omega))]
    · intro j hji hjlen
      rw [hright j hji hjlen, hfresh _ (getD_mem_of_lt dummySeg hjlen)]

/-! ### C7 and C8: the pre-change signal delivery leaves stale geometry -/

/-- C7 refuted: the claim promises that no stale geometry is ever exposed,
but the `moved` signal is delivered during
`itemChange(ItemPositionChange)`, before Qt writes the new position, so
the connected handlers recompute every cache from the moved item's old
position.  Chain variant: build a two-anchor chain and drag anchor `0`
from `(0, 0)` to `(10, 10)`; afterwards the anchor is at `(10, 10)` while
the segment starting at it still renders its cubic and its first guide
line from `(0, 0)`.  Single-curve variant: dragging a point's anchor from
`(0, 0)` to `(10, 10)` leaves both cached guide lines anchored at
`(0, 0)`. -/
theorem spec_C7 :
    lookupPos (runOps [Op.add ⟨0, 0⟩, Op.add ⟨100, 0⟩,
        Op.move 0 ⟨10, 10⟩]).store 0 = ⟨10, 10⟩ ∧
    ((runOps [Op.add ⟨0, 0⟩, Op.add ⟨100, 0⟩,
        Op.move 0 ⟨10, 10⟩]).segments.getD 0 dummySeg).startP = 0 ∧
    ((runOps [Op.add ⟨0, 0⟩, Op.add ⟨100, 0⟩,
        Op.move 0 ⟨10, 10⟩]).segments.getD 0 dummySeg).curve.p0 = ⟨0, 0⟩ ∧
    ((runOps [Op.add ⟨0, 0⟩, Op.add ⟨100, 0⟩,
        Op.move 0 ⟨10, 10⟩]).segments.getD 0 dummySeg).lineOne.a = ⟨0, 0⟩ ∧
    (move_anchor ⟨10, 10⟩ (Point.setup ⟨0, 0⟩)).pos = ⟨10, 10⟩ ∧
    (move_anchor ⟨10, 10⟩ (Point.setup ⟨0, 0⟩)).line1.a = ⟨0, 0⟩ ∧
    (move_anchor ⟨10, 10⟩ (Point.setup ⟨0, 0⟩)).line2.a = ⟨0, 0⟩ := by
  decide

/-- C8 refuted: drag handle `c1` of a point anchored at `(0, 0)` to
`(20, 30)` and end the drag, storing the offset `(-20, -30)`; then drag
the anchor by `Δ = (10, 0)`.  The claim demands the handle land at
`oldHandlePos + Δ = (30, 30)`, but `update_point` reads the anchor's
position during the pre-change notification — still `(0, 0)` — and
recomputes `c1 = (0, 0) - (-20, -30) = (20, 30)`: the handle does not
move at all. -/
theorem spec_C8 :
    (update_control_point_1 (move_c1 ⟨20, 30⟩ (Point.setup ⟨0, 0⟩))).c1
      = ⟨20, 30⟩ ∧
    (update_control_point_1 (move_c1 ⟨20, 30⟩ (Point.setup ⟨0, 0⟩))).pos
      = ⟨0, 0⟩ ∧
    (move_anchor ⟨10, 0⟩
        (update_control_point_1 (move_c1 ⟨20, 30⟩ (Point.setup ⟨0, 0⟩)))).pos
      = ⟨10, 0⟩ ∧
    (move_anchor ⟨10, 0⟩
        (update_control_point_1 (move_c1 ⟨20, 30⟩ (Point.setup ⟨0, 0⟩)))).c1
      = ⟨20, 30⟩ ∧
    (⟨20, 30⟩ : Pt) ≠ ⟨20 + 10, 30 + 0⟩ := by
  decide

/-- C9: moving the same point to the same position twice yields the same
full state as moving it once, in both variants.  The first call may leave
stale geometry (its handlers run before the position write), but the
second, identical `setPos` is a Qt no-op — an item already at the target
position emits no `ItemPositionChange` — so it changes nothing: the
renderable geometry is identical after each of the two calls and no
offset accumulates. -/
theorem spec_C9 (s : Point) (p : Pt) (m : CurveManager) (pid : Nat) (q : Pt) :
    move_anchor p (move_anchor p s) = move_anchor p s ∧
    move_point (move_point m pid q) pid q = move_point m pid q := by
  constructor
  · unfold move_anchor
    by_cases hp : s.pos = p
    · rw [if_pos hp, if_pos hp]
    · rw [if_neg hp]
      have hpos : ({ update_point s with pos := p } : Point).pos = p := rfl
      rw [if_pos hpos]
  · by_cases hq : lookupPos m.store pid = q
    · rw [move_point_same hq, move_point_same hq]
    · by_cases hmem : pid ∈ storeIds m.store
      · have hl : lookupPos (move_point m pid q).store pid = q := by
          rw [move_point_store hq]
          exact lookupPos_storeSet_self hmem q
        rw [move_point_same hl]
      · have hmem2 : pid ∉ storeIds (update_graphics m).store := hmem
        have hq2 : ¬ lookupPos (update_graphics m).store pid = q := hq
        rw [move_point_not_mem hmem hq, move_point_not_mem hmem2 hq2,
            update_graphics_idem]

/-- C5 counterexample: the claim asserts that a removal request on a chain
holding exactly one anchor is a no-op keeping the count at 1.  In the
`all.py` variant (cited by the claim through `MainWindow.delete_point`),
double-clicking the sole point deletes it: the count drops from 1 to 0. -/
theorem spec_C5_cex :
    (runWOps [WOp.click ⟨3, 4⟩]).points.length = 1 ∧
    (runWOps [WOp.click ⟨3, 4⟩, WOp.delete 0]).points.length = 0 := by
  constructor <;> rfl

theorem add_point_points (m : CurveManager) (pos : Pt) :
    (add_point m pos).points = m.points ++ [m.nextId] := by
  unfold add_point
  cases m.points.getLast? <;> rfl

theorem remove_point_points_ne {m : CurveManager} (pid : Nat)
    (hne : m.points ≠ []) : (remove_point m pid).points ≠ [] := by
  unfold remove_point
  split
  · exact hne
  · rename_i hlen
    split
    · exact hne
    · rename_i idx hidx
      have hidxlt : idx < m.points.length := idxOf?_lt_length hidx
      have herase : removeFirst m.points pid = m.points.eraseIdx idx :=
        removeFirst_eq_eraseIdx hidx
      have hlen2 : (m.points.eraseIdx idx).length = m.points.length - 1 :=
        List.length_eraseIdx_of_lt hidxlt
      have hnn : m.points.eraseIdx idx ≠ [] := by
        intro hnil
        rw [hnil] at hlen2
        simp at hlen2
        omega
      split
      · show removeFirst m.points pid ≠ []
        rw [herase]
        exact hnn
      · split
        · show removeFirst m.points pid ≠ []
          rw [herase]
          exact hnn
        · show removeFirst m.points pid ≠ []
          rw [herase]
          exact hnn

/-- C5 amended: in the chain variant (`multi.py`), a removal request on a
chain with exactly one anchor is a silent no-op — the whole state is
returned unchanged — and once a point exists no event (add, remove or
move) ever empties the chain.  The `all.py` variant does not share this
guard: deleting its sole point removes it (see the counterexample). -/
theorem spec_C5 (m : CurveManager) (pid : Nat) (h : m.points.length = 1) :
    remove_point m pid = m ∧
    (∀ (m' : CurveManager) (op : Op),
      m'.points ≠ [] → (applyOp m' op).points ≠ []) := by
  constructor
  · unfold remove_point
    rw [if_pos (by omega)]
  · intro m' op hne
    cases op with
    | add pos =>
        rw [applyOp, add_point_points]
        simp
    | remove pid2 => exact remove_point_points_ne pid2 hne
    | move pid2 pos =>
        rw [applyOp, move_point_points]
        exact hne

/-- C5 witness: the no-op at a concrete one-anchor chain. -/
theorem spec_C5_witness :
    remove_point (runOps [Op.add ⟨5, 5⟩]) 0 = runOps [Op.add ⟨5, 5⟩] ∧
    (∀ (m' : CurveManager) (op : Op),
      m'.points ≠ [] → (applyOp m' op).points ≠ []) :=
  spec_C5 (runOps [Op.add ⟨5, 5⟩]) 0 (by rfl)

/-- C6 counterexample: the claim says every removal re-derives each
anchor's role from its chain position, so after deleting the first anchor
of a 3-anchor chain the remaining head should have role `first`.  In the
code, `delete_point` never recomputes roles: the surviving points keep
`center` and `last`. -/
theorem spec_C6_cex :
    (runWOps [WOp.click ⟨0, 0⟩, WOp.click ⟨10, 10⟩, WOp.click ⟨20, 20⟩,
              WOp.delete 0]).points.map Point.status
      = [Status.center, Status.last] ∧
    Status.center ≠ Status.first := by
  constructor
  · rfl
  · decide

theorem status_set_status (st : Status) (s : Point) :
    (set_status st s).status = st := rfl

theorem status_map_set_status (st : Status) (l : List Point) (j : Nat)
    (hj : j < l.length) :
    ((l.map (set_status st)).getD j point0).status = st := by
  induction l generalizing j with
  | nil => simp at hj
  | cons b t ih =>
      cases j with
      | zero => rfl
      | succ j' =>
          have hj' : j' < t.length := by
            simp at hj
            omega
          simpa using ih j' hj'

/-- C6 amended: after every insertion (`on_mouse_press` adding a point)
each anchor's role is re-derived from its chain position: a lone anchor is
`only`, index 0 of a longer chain is `first`, the last index is `last`,
every other index is `center`.  Removal does NOT recompute roles (see the
counterexample); nevertheless, removing the interior anchor of a 3-anchor
chain whose roles were position-derived leaves the two survivors with
roles `first` and `last`, as the claim's cited example states. -/
theorem spec_C6 :
    (∀ (w : MainWindow) (pos : Pt) (i : Nat),
      i < (on_mouse_press w pos).points.length →
      ((on_mouse_press w pos).points.getD i point0).status
        = roleAt i (on_mouse_press w pos).points.length) ∧
    (∀ w : MainWindow,
      (∀ i, i < w.points.length →
        (w.points.getD i point0).status = roleAt i w.points.length) →
      w.points.length = 3 →
      (delete_point w 1).points.map Point.status
        = [Status.first, Status.last]) := by
  constructor
  · intro w pos i hi
    by_cases hemp : w.points.length = 0
    · have hnil : w.points = [] := List.length_eq_zero.mp hemp
      unfold on_mouse_press at hi ⊢
      rw [if_pos hemp] at hi ⊢
      dsimp only at hi ⊢
      rw [hnil] at hi ⊢
      have hi0 : i = 0 := by
        simp at hi
        omega
      subst hi0
      rfl
    · have hne2 : w.points ≠ [] := fun hnil => hemp (by rw [hnil]; rfl)
      obtain ⟨q, rest, hwp⟩ := List.exists_cons_of_ne_nil hne2
      unfold on_mouse_press at hi ⊢
      rw [if_neg hemp] at hi ⊢
      dsimp only at hi ⊢
      rw [hwp] at hi ⊢
      simp only [List.map_cons, List.modifyHead_cons, List.cons_append] at hi ⊢
      cases i with
      | zero =>
          have hlen1 : ¬ ((set_status Status.first (set_status Status.center q) ::
              (rest.map (set_status Status.center) ++
                [set_status Status.last (Point.setup pos)])).length ≤ 1) := by
            simp
          rw [List.getD_cons_zero, status_set_status]
          unfold roleAt
          rw [if_neg hlen1, if_pos rfl]
      | succ j =>
          rw [List.getD_cons_succ]
          simp only [List.length_cons, List.length_append, List.length_map,
            List.length_cons, List.length_nil] at hi
          by_cases hj : j < rest.length
          · have hgd : ((rest.map (set_status Status.center) ++
                [set_status Status.last (Point.setup pos)]).getD j point0)
                = ((rest.map (set_status Status.center)).getD j point0) := by
              simp only [List.getD_eq_getElem?_getD]
              rw [List.getElem?_append_left (by simp [hj])]
            rw [hgd, status_map_set_status Status.center rest j hj]
            unfold roleAt
            rw [if_neg (by simp), if_neg (by omega), if_neg (by simp; omega)]
          · have hjeq : j = rest.length := by omega
            subst hjeq
            have hgd : ((rest.map (set_status Status.center) ++
                [set_status Status.last (Point.setup pos)]).getD rest.length point0)
                = set_status Status.last (Point.setup pos) := by
              simp only [List.getD_eq_getElem?_getD]
              rw [List.getElem?_append_right (by simp)]
              simp
            rw [hgd, status_set_status]
            unfold roleAt
            rw [if_neg (by simp), if_neg (by omega), if_pos (by simp)]
  · intro w hroles hlen3
    obtain ⟨p0, p1, p2, hwp⟩ := List.length_eq_three.mp hlen3
    have h0 := hroles 0 (by omega)
    have h2 := hroles 2 (by omega)
    rw [hwp] at h0 h2
    have h0' : p0.status = Status.first := by
      simpa [roleAt] using h0
    have h2' : p2.status = Status.last := by
      simpa [roleAt] using h2
    unfold delete_point
    rw [hwp]
    simp only [List.eraseIdx_cons_succ, List.eraseIdx_cons_zero,
      List.map_cons, List.map_nil]
    rw [h0', h2']
/-- C2 witness: the mirror placement at a concrete reachable two-anchor
chain (anchor ids 0 and 1, new anchor id 4). -/
theorem spec_C2_witness :
    ∃ seg : Segment,
      (add_point (runOps [Op.add ⟨0, 0⟩, Op.add ⟨100, 0⟩]) ⟨200, 0⟩).points
        = (runOps [Op.add ⟨0, 0⟩, Op.add ⟨100, 0⟩]).points
            ++ [(runOps [Op.add ⟨0, 0⟩, Op.add ⟨100, 0⟩]).nextId] ∧
      (add_point (runOps [Op.add ⟨0, 0⟩, Op.add ⟨100, 0⟩]) ⟨200, 0⟩).segments
        = (runOps [Op.add ⟨0, 0⟩, Op.add ⟨100, 0⟩]).segments.map
            (segRefresh (runOps [Op.add ⟨0, 0⟩, Op.add ⟨100, 0⟩]).store) ++ [seg] ∧
      ((∀ t ∈ (runOps [Op.add ⟨0, 0⟩, Op.add ⟨100, 0⟩]).segments,
          segRefresh (runOps [Op.add ⟨0, 0⟩, Op.add ⟨100, 0⟩]).store t = t) →
        (add_point (runOps [Op.add ⟨0, 0⟩, Op.add ⟨100, 0⟩]) ⟨200, 0⟩).segments
          = (runOps [Op.add ⟨0, 0⟩, Op.add ⟨100, 0⟩]).segments ++ [seg]) ∧
      seg.startP = 1 ∧
      seg.endP = (runOps [Op.add ⟨0, 0⟩, Op.add ⟨100, 0⟩]).nextId ∧
      seg.c1 ∉ storeIds (runOps [Op.add ⟨0, 0⟩, Op.add ⟨100, 0⟩]).store ∧
      seg.c2 ∉ storeIds (runOps [Op.add ⟨0, 0⟩, Op.add ⟨100, 0⟩]).store ∧
      lookupPos (add_point (runOps [Op.add ⟨0, 0⟩, Op.add ⟨100, 0⟩]) ⟨200, 0⟩).store
          (runOps [Op.add ⟨0, 0⟩, Op.add ⟨100, 0⟩]).nextId = ⟨200, 0⟩ ∧
      lookupPos (add_point (runOps [Op.add ⟨0, 0⟩, Op.add ⟨100, 0⟩]) ⟨200, 0⟩).store
          seg.c2 = ⟨(200 : Int) - 50, (0 : Int) + 50⟩ ∧
      lookupPos (add_point (runOps [Op.add ⟨0, 0⟩, Op.add ⟨100, 0⟩]) ⟨200, 0⟩).store 1
        = lookupPos (runOps [Op.add ⟨0, 0⟩, Op.add ⟨100, 0⟩]).store 1 ∧
      ((runOps [Op.add ⟨0, 0⟩, Op.add ⟨100, 0⟩]).segments = [] →
        lookupPos (add_point (runOps [Op.add ⟨0, 0⟩, Op.add ⟨100, 0⟩]) ⟨200, 0⟩).store
            seg.c1
          = ⟨(lookupPos (runOps [Op.add ⟨0, 0⟩, Op.add ⟨100, 0⟩]).store 1).x + 50,
             (lookupPos (runOps [Op.add ⟨0, 0⟩, Op.add ⟨100, 0⟩]).store 1).y + 50⟩) ∧
      (∀ ls, (runOps [Op.add ⟨0, 0⟩, Op.add ⟨100, 0⟩]).segments.getLast? = some ls →
        ls.endP = 1 ∧
        lookupPos (add_point (runOps [Op.add ⟨0, 0⟩, Op.add ⟨100, 0⟩]) ⟨200, 0⟩).store
            seg.c1
          = ⟨(lookupPos (runOps [Op.add ⟨0, 0⟩, Op.add ⟨100, 0⟩]).store 1).x
              - ((lookupPos (runOps [Op.add ⟨0, 0⟩, Op.add ⟨100, 0⟩]).store ls.c2).x
                  - (lookupPos (runOps [Op.add ⟨0, 0⟩, Op.add ⟨100, 0⟩]).store 1).x),
             (lookupPos (runOps [Op.add ⟨0, 0⟩, Op.add ⟨100, 0⟩]).store 1).y
              - ((lookupPos (runOps [Op.add ⟨0, 0⟩, Op.add ⟨100, 0⟩]).store ls.c2).y
                  - (lookupPos (runOps [Op.add ⟨0, 0⟩, Op.add ⟨100, 0⟩]).store 1).y)⟩) :=
  spec_C2 ⟨200, 0⟩ ⟨[Op.add ⟨0, 0⟩, Op.add ⟨100, 0⟩], rfl⟩ (by decide)

/-- C3 witness: interior removal at a concrete reachable three-anchor
chain (anchor ids 0, 1, 4; the middle anchor 1 is removed). -/
theorem spec_C3_witness :
    (remove_point (runOps [Op.add ⟨0, 0⟩, Op.add ⟨100, 0⟩, Op.add ⟨200, 0⟩]) 1).points
      = (runOps [Op.add ⟨0, 0⟩, Op.add ⟨100, 0⟩, Op.add ⟨200, 0⟩]).points.eraseIdx 1 ∧
    (remove_point (runOps [Op.add ⟨0, 0⟩, Op.add ⟨100, 0⟩, Op.add ⟨200, 0⟩]) 1).points.length
      = (runOps [Op.add ⟨0, 0⟩, Op.add ⟨100, 0⟩, Op.add ⟨200, 0⟩]).points.length - 1 ∧
    (remove_point (runOps [Op.add ⟨0, 0⟩, Op.add ⟨100, 0⟩, Op.add ⟨200, 0⟩]) 1).segments.length
      = (runOps [Op.add ⟨0, 0⟩, Op.add ⟨100, 0⟩, Op.add ⟨200, 0⟩]).segments.length - 1 ∧
    ∃ rep : Segment,
      (remove_point (runOps [Op.add ⟨0, 0⟩, Op.add ⟨100, 0⟩, Op.add ⟨200, 0⟩]) 1).segments
        = ((runOps [Op.add ⟨0, 0⟩, Op.add ⟨100, 0⟩, Op.add ⟨200, 0⟩]).segments.take 0).map
              (segRefresh (runOps [Op.add ⟨0, 0⟩, Op.add ⟨100, 0⟩, Op.add ⟨200, 0⟩]).store)
            ++ rep ::
              ((runOps [Op.add ⟨0, 0⟩, Op.add ⟨100, 0⟩, Op.add ⟨200, 0⟩]).segments.drop 2).map
                (segRefresh (runOps [Op.add ⟨0, 0⟩, Op.add ⟨100, 0⟩, Op.add ⟨200, 0⟩]).store) ∧
      ((∀ t ∈ (runOps [Op.add ⟨0, 0⟩, Op.add ⟨100, 0⟩, Op.add ⟨200, 0⟩]).segments,
          segRefresh (runOps [Op.add ⟨0, 0⟩, Op.add ⟨100, 0⟩, Op.add ⟨200, 0⟩]).store t = t) →
        (remove_point (runOps [Op.add ⟨0, 0⟩, Op.add ⟨100, 0⟩, Op.add ⟨200, 0⟩]) 1).segments
          = (runOps [Op.add ⟨0, 0⟩, Op.add ⟨100, 0⟩, Op.add ⟨200, 0⟩]).segments.take 0
              ++ rep ::
                (runOps [Op.add ⟨0, 0⟩, Op.add ⟨100, 0⟩, Op.add ⟨200, 0⟩]).segments.drop 2) ∧
      rep.startP = (runOps [Op.add ⟨0, 0⟩, Op.add ⟨100, 0⟩, Op.add ⟨200, 0⟩]).points.getD 0 0 ∧
      rep.endP = (runOps [Op.add ⟨0, 0⟩, Op.add ⟨100, 0⟩, Op.add ⟨200, 0⟩]).points.getD 2 0 ∧
      rep.c1 ∉ storeIds (runOps [Op.add ⟨0, 0⟩, Op.add ⟨100, 0⟩, Op.add ⟨200, 0⟩]).store ∧
      rep.c2 ∉ storeIds (runOps [Op.add ⟨0, 0⟩, Op.add ⟨100, 0⟩, Op.add ⟨200, 0⟩]).store ∧
      rep.c1 ≠ rep.c2 ∧
      lookupPos (remove_point (runOps [Op.add ⟨0, 0⟩, Op.add ⟨100, 0⟩, Op.add ⟨200, 0⟩]) 1).store rep.c1
        = ⟨(lookupPos (remove_point (runOps [Op.add ⟨0, 0⟩, Op.add ⟨100, 0⟩, Op.add ⟨200, 0⟩]) 1).store
              ((runOps [Op.add ⟨0, 0⟩, Op.add ⟨100, 0⟩, Op.add ⟨200, 0⟩]).points.getD 0 0)).x + 50,
           (lookupPos (remove_point (runOps [Op.add ⟨0, 0⟩, Op.add ⟨100, 0⟩, Op.add ⟨200, 0⟩]) 1).store
              ((runOps [Op.add ⟨0, 0⟩, Op.add ⟨100, 0⟩, Op.add ⟨200, 0⟩]).points.getD 0 0)).y + 50⟩ ∧
      lookupPos (remove_point (runOps [Op.add ⟨0, 0⟩, Op.add ⟨100, 0⟩, Op.add ⟨200, 0⟩]) 1).store rep.c2
        = ⟨(lookupPos (remove_point (runOps [Op.add ⟨0, 0⟩, Op.add ⟨100, 0⟩, Op.add ⟨200, 0⟩]) 1).store
              ((runOps [Op.add ⟨0, 0⟩, Op.add ⟨100, 0⟩, Op.add ⟨200, 0⟩]).points.getD 2 0)).x - 50,
           (lookupPos (remove_point (runOps [Op.add ⟨0, 0⟩, Op.add ⟨100, 0⟩, Op.add ⟨200, 0⟩]) 1).store
              ((runOps [Op.add ⟨0, 0⟩, Op.add ⟨100, 0⟩, Op.add ⟨200, 0⟩]).points.getD 2 0)).y + 50⟩ :=
  @spec_C3 (runOps [Op.add ⟨0, 0⟩, Op.add ⟨100, 0⟩, Op.add ⟨200, 0⟩]) 1 1
    ⟨[Op.add ⟨0, 0⟩, Op.add ⟨100, 0⟩, Op.add ⟨200, 0⟩], rfl⟩
    (by decide) (by decide) (by decide)

/-- C4 witness: the adjacency facts at segment 0 of a concrete
three-anchor chain. -/
theorem spec_C4_witness :
    ((runOps [Op.add ⟨0, 0⟩, Op.add ⟨100, 0⟩, Op.add ⟨200, 0⟩]).segments.getD 0 dummySeg).startP
      = (runOps [Op.add ⟨0, 0⟩, Op.add ⟨100, 0⟩, Op.add ⟨200, 0⟩]).points.getD 0 0 ∧
    ((runOps [Op.add ⟨0, 0⟩, Op.add ⟨100, 0⟩, Op.add ⟨200, 0⟩]).segments.getD 0 dummySeg).endP
      = (runOps [Op.add ⟨0, 0⟩, Op.add ⟨100, 0⟩, Op.add ⟨200, 0⟩]).points.getD 1 0 ∧
    ((runOps [Op.add ⟨0, 0⟩, Op.add ⟨100, 0⟩, Op.add ⟨200, 0⟩]).segments.getD 0 dummySeg).startP
      ∈ (runOps [Op.add ⟨0, 0⟩, Op.add ⟨100, 0⟩, Op.add ⟨200, 0⟩]).points ∧
    ((runOps [Op.add ⟨0, 0⟩, Op.add ⟨100, 0⟩, Op.add ⟨200, 0⟩]).segments.getD 0 dummySeg).endP
      ∈ (runOps [Op.add ⟨0, 0⟩, Op.add ⟨100, 0⟩, Op.add ⟨200, 0⟩]).points ∧
    ((runOps [Op.add ⟨0, 0⟩, Op.add ⟨100, 0⟩, Op.add ⟨200, 0⟩]).segments.getD 0 dummySeg).c1
      ∈ storeIds (runOps [Op.add ⟨0, 0⟩, Op.add ⟨100, 0⟩, Op.add ⟨200, 0⟩]).store ∧
    ((runOps [Op.add ⟨0, 0⟩, Op.add ⟨100, 0⟩, Op.add ⟨200, 0⟩]).segments.getD 0 dummySeg).c2
      ∈ storeIds (runOps [Op.add ⟨0, 0⟩, Op.add ⟨100, 0⟩, Op.add ⟨200, 0⟩]).store :=
  spec_C4 [Op.add ⟨0, 0⟩, Op.add ⟨100, 0⟩, Op.add ⟨200, 0⟩] 0 (by decide)

/-- C10 witness: the frame facts at the same concrete interior removal as
the C3 witness. -/
theorem spec_C10_witness :
    (remove_point (runOps [Op.add ⟨0, 0⟩, Op.add ⟨100, 0⟩, Op.add ⟨200, 0⟩]) 1).segments.length
      = (runOps [Op.add ⟨0, 0⟩, Op.add ⟨100, 0⟩, Op.add ⟨200, 0⟩]).segments.length - 1 ∧
    (∀ i ∈ storeIds (runOps [Op.add ⟨0, 0⟩, Op.add ⟨100, 0⟩, Op.add ⟨200, 0⟩]).store,
      lookupPos (remove_point (runOps [Op.add ⟨0, 0⟩, Op.add ⟨100, 0⟩, Op.add ⟨200, 0⟩]) 1).store i
        = lookupPos (runOps [Op.add ⟨0, 0⟩, Op.add ⟨100, 0⟩, Op.add ⟨200, 0⟩]).store i) ∧
    (∀ j, j < 0 →
      (remove_point (runOps [Op.add ⟨0, 0⟩, Op.add ⟨100, 0⟩, Op.add ⟨200, 0⟩]) 1).segments.getD j dummySeg
        = segRefresh (runOps [Op.add ⟨0, 0⟩, Op.add ⟨100, 0⟩, Op.add ⟨200, 0⟩]).store
            ((runOps [Op.add ⟨0, 0⟩, Op.add ⟨100, 0⟩, Op.add ⟨200, 0⟩]).segments.getD j dummySeg)) ∧
    (∀ j, 1 < j → j < (runOps [Op.add ⟨0, 0⟩, Op.add ⟨100, 0⟩, Op.add ⟨200, 0⟩]).segments.length →
      (remove_point (runOps [Op.add ⟨0, 0⟩, Op.add ⟨100, 0⟩, Op.add ⟨200, 0⟩]) 1).segments.getD (j - 1) dummySeg
        = segRefresh (runOps [Op.add ⟨0, 0⟩, Op.add ⟨100, 0⟩, Op.add ⟨200, 0⟩]).store
            ((runOps [Op.add ⟨0, 0⟩, Op.add ⟨100, 0⟩, Op.add ⟨200, 0⟩]).segments.getD j dummySeg)) ∧
    ((∀ t ∈ (runOps [Op.add ⟨0, 0⟩, Op.add ⟨100, 0⟩, Op.add ⟨200, 0⟩]).segments,
        segRefresh (runOps [Op.add ⟨0, 0⟩, Op.add ⟨100, 0⟩, Op.add ⟨200, 0⟩]).store t = t) →
      (∀ j, j < 0 →
        (remove_point (runOps [Op.add ⟨0, 0⟩, Op.add ⟨100, 0⟩, Op.add ⟨200, 0⟩]) 1).segments.getD j dummySeg
          = (runOps [Op.add ⟨0, 0⟩, Op.add ⟨100, 0⟩, Op.add ⟨200, 0⟩]).segments.getD j dummySeg) ∧
      (∀ j, 1 < j → j < (runOps [Op.add ⟨0, 0⟩, Op.add ⟨100, 0⟩, Op.add ⟨200, 0⟩]).segments.length →
        (remove_point (runOps [Op.add ⟨0, 0⟩, Op.add ⟨100, 0⟩, Op.add ⟨200, 0⟩]) 1).segments.getD (j - 1) dummySeg
          = (runOps [Op.add ⟨0, 0⟩, Op.add ⟨100, 0⟩, Op.add ⟨200, 0⟩]).segments.getD j dummySeg)) ∧
    ∃ rep : Segment,
      (remove_point (runOps [Op.add ⟨0, 0⟩, Op.add ⟨100, 0⟩, Op.add ⟨200, 0⟩]) 1).segments
        = ((runOps [Op.add ⟨0, 0⟩, Op.add ⟨100, 0⟩, Op.add ⟨200, 0⟩]).segments.take 0).map
              (segRefresh (runOps [Op.add ⟨0, 0⟩, Op.add ⟨100, 0⟩, Op.add ⟨200, 0⟩]).store)
            ++ rep ::
              ((runOps [Op.add ⟨0, 0⟩, Op.add ⟨100, 0⟩, Op.add ⟨200, 0⟩]).segments.drop 2).map
                (segRefresh (runOps [Op.add ⟨0, 0⟩, Op.add ⟨100, 0⟩, Op.add ⟨200, 0⟩]).store) ∧
      rep.c1 ∉ storeIds (runOps [Op.add ⟨0, 0⟩, Op.add ⟨100, 0⟩, Op.add ⟨200, 0⟩]).store ∧
      rep.c2 ∉ storeIds (runOps [Op.add ⟨0, 0⟩, Op.add ⟨100, 0⟩, Op.add ⟨200, 0⟩]).store :=
  @spec_C10 (runOps [Op.add ⟨0, 0⟩, Op.add ⟨100, 0⟩, Op.add ⟨200, 0⟩]) 1 1
    ⟨[Op.add ⟨0, 0⟩, Op.add ⟨100, 0⟩, Op.add ⟨200, 0⟩], rfl⟩
    (by decide) (by decide) (by decide)

end BezierDrawing
